import Mathlib

/-!
Verification of the rendering core of `termtosvg` (file `termtosvg/anim.py`)
against its natural-language specification.

The Python source is shallowly embedded below: pure functions become Lean
functions, Python dictionaries become association lists, machine integers
become `Nat`/`Int`, and code that can raise an exception returns
`Except PyExc _`.  Each definition is annotated with the source function it
embeds.
-/

/-- Python exceptions raised by the embedded code: `ValueError`,
`KeyError` (a missing dictionary key) and the module's own `TemplateError`. -/
inductive PyExc where
  | valueError (msg : String)
  | keyError
  | templateError (msg : String)
deriving DecidableEq, Repr

/- ### Decimal rendering of natural numbers (Python `str(n)` / `'{}'.format(n)`) -/

/-- Little-endian decimal digits of `n`, computed with explicit fuel so the
definition is structurally recursive (the fuel `n` itself always suffices). -/
def pyDigitsAux : Nat → Nat → List Nat
  | 0, _ => []
  | _ + 1, 0 => []
  | fuel + 1, n + 1 => ((n + 1) % 10) :: pyDigitsAux fuel ((n + 1) / 10)

/-- Little-endian decimal digits of `n` (empty for `n = 0`). -/
def pyDigits (n : Nat) : List Nat := pyDigitsAux n n

/-- Value of a little-endian decimal digit list. -/
def unDigits : List Nat → Nat
  | [] => 0
  | d :: ds => d + 10 * unDigits ds

theorem pyDigitsAux_spec (fuel : Nat) : ∀ n, n ≤ fuel → unDigits (pyDigitsAux fuel n) = n := by
  induction fuel with
  | zero => intro n hn; interval_cases n; simp [pyDigitsAux, unDigits]
  | succ fuel ih =>
    intro n hn
    match n with
    | 0 => simp [pyDigitsAux, unDigits]
    | m + 1 =>
      have hdiv : (m + 1) / 10 ≤ fuel := by
        have h1 : (m + 1) / 10 < m + 1 := Nat.div_lt_self (Nat.succ_pos m) (by omega)
        omega
      simp only [pyDigitsAux, unDigits, ih _ hdiv]
      omega

theorem unDigits_pyDigits (n : Nat) : unDigits (pyDigits n) = n :=
  pyDigitsAux_spec n n le_rfl

theorem pyDigitsAux_lt_ten (fuel : Nat) :
    ∀ n, ∀ d ∈ pyDigitsAux fuel n, d < 10 := by
  induction fuel with
  | zero => intro n d hd; simp [pyDigitsAux] at hd
  | succ fuel ih =>
    intro n d hd
    match n with
    | 0 => simp [pyDigitsAux] at hd
    | m + 1 =>
      simp only [pyDigitsAux, List.mem_cons] at hd
      rcases hd with h | h
      · omega
      · exact ih _ d h

theorem pyDigits_lt_ten (n : Nat) : ∀ d ∈ pyDigits n, d < 10 :=
  pyDigitsAux_lt_ten n n

/-- Python `str(n)` for a natural number. -/
def pyStr (n : Nat) : String :=
  if n = 0 then "0" else String.mk (((pyDigits n).map Nat.digitChar).reverse)

theorem digitChar_inj_lt_ten :
    ∀ a < 10, ∀ b < 10, Nat.digitChar a = Nat.digitChar b → a = b := by decide

theorem map_digitChar_inj :
    ∀ l₁ l₂ : List Nat, (∀ d ∈ l₁, d < 10) → (∀ d ∈ l₂, d < 10) →
      l₁.map Nat.digitChar = l₂.map Nat.digitChar → l₁ = l₂ := by
  intro l₁
  induction l₁ with
  | nil => intro l₂ _ _ h; cases l₂ <;> simp_all
  | cons a t ih =>
    intro l₂ h₁ h₂ h
    cases l₂ with
    | nil => simp at h
    | cons b t₂ =>
      simp only [List.map_cons, List.cons.injEq] at h
      have ha : a < 10 := h₁ a (by simp)
      have hb : b < 10 := h₂ b (by simp)
      have hab : a = b := digitChar_inj_lt_ten a ha b hb h.1
      have ht : t = t₂ := ih t₂ (fun d hd => h₁ d (by simp [hd])) (fun d hd => h₂ d (by simp [hd])) h.2
      simp [hab, ht]

theorem pyStr_inj {a b : Nat} (h : pyStr a = pyStr b) : a = b := by
  by_cases ha : a = 0 <;> by_cases hb : b = 0
  · omega
  all_goals simp only [pyStr, ha, hb, if_pos, if_neg, if_true, if_false] at h
  · -- a = 0, b ≠ 0
    exfalso
    have h' : (['0'] : List Char) = ((pyDigits b).map Nat.digitChar).reverse := by
      have := congrArg String.data h
      simpa using this
    have hlen : (pyDigits b).length = 1 := by
      have := congrArg List.length h'
      simpa using this.symm
    match hd : pyDigits b with
    | [] => rw [hd] at hlen; simp at hlen
    | d :: ds =>
      rw [hd] at hlen
      simp at hlen
      subst hlen
      rw [hd] at h'
      simp at h'
      have hd10 : d < 10 := pyDigits_lt_ten b d (by rw [hd]; simp)
      have : d = 0 := digitChar_inj_lt_ten d hd10 0 (by omega) (by rw [← h']; rfl)
      subst this
      have hb' := unDigits_pyDigits b
      rw [hd] at hb'
      simp [unDigits] at hb'
      omega
  · -- a ≠ 0, b = 0
    exfalso
    have h' : ((pyDigits a).map Nat.digitChar).reverse = (['0'] : List Char) := by
      have := congrArg String.data h
      simpa using this
    have hlen : (pyDigits a).length = 1 := by
      have := congrArg List.length h'
      simpa using this
    match hd : pyDigits a with
    | [] => rw [hd] at hlen; simp at hlen
    | d :: ds =>
      rw [hd] at hlen
      simp at hlen
      subst hlen
      rw [hd] at h'
      simp at h'
      have hd10 : d < 10 := pyDigits_lt_ten a d (by rw [hd]; simp)
      have : d = 0 := digitChar_inj_lt_ten d hd10 0 (by omega) (by rw [h']; rfl)
      subst this
      have ha' := unDigits_pyDigits a
      rw [hd] at ha'
      simp [unDigits] at ha'
      omega
  · -- both nonzero
    have h' : ((pyDigits a).map Nat.digitChar).reverse = ((pyDigits b).map Nat.digitChar).reverse := by
      have := congrArg String.data h
      simpa using this
    have h'' : (pyDigits a).map Nat.digitChar = (pyDigits b).map Nat.digitChar :=
      List.reverse_injective h'
    have hdig : pyDigits a = pyDigits b :=
      map_digitChar_inj _ _ (pyDigits_lt_ten a) (pyDigits_lt_ten b) h''
    have := unDigits_pyDigits a
    rw [hdig, unDigits_pyDigits b] at this
    omega

/- ### The color model (`CharacterCell.from_pyte`, anim.py lines 46-95) -/

/-- The eight base ANSI color names (`_COLORS` in anim.py). -/
def baseColors : List String :=
  ["black", "red", "green", "brown", "blue", "magenta", "cyan", "white"]

/-- The bright variants (`_BRIGHTCOLORS` in anim.py). -/
def brightColors : List String := baseColors.map (fun c => "bright" ++ c)

/-- All sixteen reserved color names (`ALL_COLORS` in anim.py). -/
def allColors : List String := baseColors ++ brightColors

/-- The dictionary `color_numbers = dict(zip(ALL_COLORS, range(len(ALL_COLORS))))`
built in `CharacterCell.from_pyte`. -/
def colorNumbers : List (String × Nat) :=
  List.zip allColors (List.range allColors.length)

/-- A palette (`Dict[Any, str]` in the source): the `foreground`/`background`
keys plus a partial mapping from numeric indices to colors.  Only these keys
are ever consulted by `anim.py`. -/
structure Palette where
  foreground : String
  background : String
  colors : List (Nat × String)

/-- The subset of a `pyte.screens.Char` consulted by `CharacterCell.from_pyte`:
the character itself, its foreground/background descriptors (strings in pyte)
and the bold/reverse style flags. -/
structure PyteChar where
  data : String
  fg : String
  bg : String
  bold : Bool
  reverse : Bool

/-- Representation of a character cell (`_CharacterCell` in anim.py). -/
structure CharacterCell where
  text : String
  color : String
  background_color : String
  bold : Bool
deriving DecidableEq, Repr

/-- Success of Python `int(s, 16)`: every character is a hexadecimal digit.
(Python also tolerates a sign, underscores and surrounding whitespace; no
input considered in this development exercises those.) -/
def pyIsHex (s : String) : Bool :=
  s.data.all (fun c => c.isDigit || ("abcdefABCDEF".data.contains c))

/-- Python `s.startswith(p)`, via list prefix so that it evaluates inside
the kernel. -/
def strStartsWith (s p : String) : Bool := p.data.isPrefixOf s.data

/-- Foreground resolution: the `char.fg` half of `CharacterCell.from_pyte`
(anim.py lines 53-77).  `bold` on a non-bright name promotes the name to its
bright counterpart; a named color's index is looked up in the palette and
falls back to `index % 8` when absent; a 6-character hex string is rendered
as `#RRGGBB`; anything else raises `ValueError`. -/
def resolveFg (char : PyteChar) (palette : Palette) : Except PyExc String :=
  if char.fg = "default" then pure palette.foreground
  else
    let search_color :=
      if char.bold && !(strStartsWith char.fg "bright") then "bright" ++ char.fg else char.fg
    match colorNumbers.lookup search_color with
    | some n =>
      let color_number := if (palette.colors.lookup n).isSome then n else n % 8
      match palette.colors.lookup color_number with
      | some c => pure c
      | none => throw .keyError
    | none =>
      if char.fg.length = 6 then
        if pyIsHex char.fg then pure ("#" ++ char.fg)
        else throw (.valueError "invalid literal for int with base 16")
      else throw (.valueError "Invalid foreground color")

/-- Background resolution: the `char.bg` half of `CharacterCell.from_pyte`
(anim.py lines 79-90).  Note there is no bold promotion and no `% 8`
fallback here: a named color's index is looked up directly. -/
def resolveBg (char : PyteChar) (palette : Palette) : Except PyExc String :=
  if char.bg = "default" then pure palette.background
  else
    match colorNumbers.lookup char.bg with
    | some n =>
      match palette.colors.lookup n with
      | some c => pure c
      | none => throw .keyError
    | none =>
      if char.bg.length = 6 then
        if pyIsHex char.bg then pure ("#" ++ char.bg)
        else throw (.valueError "invalid literal for int with base 16")
      else throw (.valueError "Invalid background color")

/-- Embedding of `CharacterCell.from_pyte` (anim.py lines 46-95): resolve the
foreground and background descriptors, then swap the two resolved colors
when the `reverse` flag is set. -/
def CharacterCell.from_pyte (char : PyteChar) (palette : Palette) :
    Except PyExc CharacterCell := do
  let text_color ← resolveFg char palette
  let background_color ← resolveBg char palette
  if char.reverse then
    pure ⟨char.data, background_color, text_color, char.bold⟩
  else
    pure ⟨char.data, text_color, background_color, char.bold⟩

/- ### Run-length grouping (`ConsecutiveWithSameAttributes` + `itertools.groupby`) -/

/-- Consume the longest prefix of `l` whose indices continue `idx` one by one
and whose key equals `k`.  Together with `groupConsec` below this is the
explicit-fold form of the stateful `ConsecutiveWithSameAttributes` key used
with `itertools.groupby` (anim.py lines 104-120): a new group starts exactly
when `last_index != index - 1` or the key attributes change. -/
def takeRun {α β : Type} (key : α → β) [DecidableEq β] (idx : Nat) (k : β) :
    List (Nat × α) → List (Nat × α) × List (Nat × α)
  | [] => ([], [])
  | (j, a) :: rest =>
    if j = idx + 1 ∧ key a = k then
      let t := takeRun key j k rest
      ((j, a) :: t.1, t.2)
    else ([], (j, a) :: rest)

theorem takeRun_append {α β : Type} (key : α → β) [DecidableEq β] (idx : Nat) (k : β)
    (l : List (Nat × α)) : (takeRun key idx k l).1 ++ (takeRun key idx k l).2 = l := by
  induction l generalizing idx with
  | nil => simp [takeRun]
  | cons p rest ih =>
    obtain ⟨j, a⟩ := p
    simp only [takeRun]
    split
    · simp [ih]
    · simp

theorem takeRun_rem_length {α β : Type} (key : α → β) [DecidableEq β] (idx : Nat) (k : β)
    (l : List (Nat × α)) : (takeRun key idx k l).2.length ≤ l.length := by
  have h := congrArg List.length (takeRun_append key idx k l)
  simp only [List.length_append] at h
  omega

/-- Decidable description of a group's items: indices consecutive starting at
`s`, every key equal to `k`. -/
def runFrom {α β : Type} (key : α → β) [DecidableEq β] : Nat → β → List (Nat × α) → Bool
  | _, _, [] => true
  | s, k, (j, a) :: rest =>
    decide (j = s) && decide (key a = k) && runFrom key (s + 1) k rest

theorem runFrom_cons {α β : Type} (key : α → β) [DecidableEq β] (s : Nat) (k : β)
    (j : Nat) (a : α) (rest : List (Nat × α)) :
    runFrom key s k ((j, a) :: rest) = true ↔
      j = s ∧ key a = k ∧ runFrom key (s + 1) k rest = true := by
  simp [runFrom, Bool.and_eq_true, decide_eq_true_eq, and_assoc]

theorem takeRun_runFrom {α β : Type} (key : α → β) [DecidableEq β] (idx : Nat) (k : β)
    (l : List (Nat × α)) : runFrom key (idx + 1) k (takeRun key idx k l).1 = true := by
  induction l generalizing idx with
  | nil => simp [takeRun, runFrom]
  | cons p rest ih =>
    obtain ⟨j, a⟩ := p
    simp only [takeRun]
    split
    · rename_i hcond
      rw [runFrom_cons]
      exact ⟨hcond.1, hcond.2, hcond.1 ▸ ih j⟩
    · simp [runFrom]

theorem takeRun_all {α β : Type} (key : α → β) [DecidableEq β] (idx : Nat) (k : β)
    (l : List (Nat × α)) (hl : runFrom key (idx + 1) k l = true) :
    takeRun key idx k l = (l, []) := by
  induction l generalizing idx with
  | nil => simp [takeRun]
  | cons p rest ih =>
    obtain ⟨j, a⟩ := p
    rw [runFrom_cons] at hl
    obtain ⟨hj, hk, hrest⟩ := hl
    simp only [takeRun]
    rw [if_pos ⟨hj, hk⟩]
    have := ih j (by rw [hj]; exact hrest)
    simp [this]

theorem takeRun_run_break {α β : Type} (key : α → β) [DecidableEq β] (idx : Nat) (k : β)
    (l₁ l₂ : List (Nat × α)) (h₁ : runFrom key (idx + 1) k l₁ = true)
    (hbreak : ∀ j b l₂', l₂ = (j, b) :: l₂' → j ≠ idx + 1 + l₁.length ∨ key b ≠ k) :
    takeRun key idx k (l₁ ++ l₂) = (l₁, l₂) := by
  induction l₁ generalizing idx with
  | nil =>
    match l₂ with
    | [] => simp [takeRun]
    | (j, b) :: l₂' =>
      have hb := hbreak j b l₂' rfl
      simp only [List.nil_append, takeRun]
      rw [if_neg (by simp only [List.length_nil] at hb; tauto)]
  | cons p rest ih =>
    obtain ⟨j, a⟩ := p
    rw [runFrom_cons] at h₁
    obtain ⟨hj, hk, hrest⟩ := h₁
    simp only [List.cons_append, takeRun]
    rw [if_pos ⟨hj, hk⟩]
    have hbreak' : ∀ j' b l₂', l₂ = (j', b) :: l₂' → j' ≠ j + 1 + rest.length ∨ key b ≠ k := by
      intro j' b l₂' heq
      rcases hbreak j' b l₂' heq with h | h
      · left; simp only [List.length_cons] at h; omega
      · right; exact h
    have := ih j (by rw [hj]; exact hrest) hbreak'
    rw [hj] at this ⊢
    simp [this]

/-- Grouping of an indexed list into maximal runs of consecutive indices with
equal key attributes; each group carries its start index, the shared key and
its items.  This is `itertools.groupby(..., ConsecutiveWithSameAttributes(...))`
(anim.py lines 104-120 together with its two uses at lines 151-157 and
190-193) expressed as an explicit recursion. -/
def groupConsec {α β : Type} (key : α → β) [DecidableEq β] :
    List (Nat × α) → List (Nat × β × List (Nat × α))
  | [] => []
  | (i, a) :: rest =>
    (i, key a, (i, a) :: (takeRun key i (key a) rest).1) ::
      groupConsec key (takeRun key i (key a) rest).2
termination_by l => l.length
decreasing_by
  simp only [List.length_cons]
  exact Nat.lt_succ_of_le (takeRun_rem_length _ _ _ _)

theorem groupConsec_join {α β : Type} (key : α → β) [DecidableEq β] (l : List (Nat × α)) :
    ((groupConsec key l).map (fun g => g.2.2)).flatten = l := by
  induction l using groupConsec.induct key with
  | case1 => simp [groupConsec]
  | case2 i a rest ih =>
    rw [groupConsec]
    simp only [List.map_cons, List.flatten_cons, ih, List.cons_append]
    rw [takeRun_append]

theorem groupConsec_runs {α β : Type} (key : α → β) [DecidableEq β] (l : List (Nat × α)) :
    ∀ g ∈ groupConsec key l, g.2.2 ≠ [] ∧ runFrom key g.1 g.2.1 g.2.2 = true := by
  induction l using groupConsec.induct key with
  | case1 => simp [groupConsec]
  | case2 i a rest ih =>
    rw [groupConsec]
    intro g hg
    simp only [List.mem_cons] at hg
    rcases hg with hg | hg
    · subst hg
      refine ⟨by simp, ?_⟩
      rw [runFrom_cons]
      exact ⟨rfl, rfl, takeRun_runFrom key i (key a) rest⟩
    · exact ih g hg

theorem groupConsec_single {α β : Type} (key : α → β) [DecidableEq β]
    (i : Nat) (a : α) (rest : List (Nat × α))
    (h : runFrom key i (key a) ((i, a) :: rest) = true) :
    groupConsec key ((i, a) :: rest) = [(i, key a, (i, a) :: rest)] := by
  rw [runFrom_cons] at h
  rw [groupConsec, takeRun_all key i (key a) rest h.2.2]
  simp [groupConsec]

theorem groupConsec_pair {α β : Type} (key : α → β) [DecidableEq β]
    (i : Nat) (a : α) (rest₁ : List (Nat × α)) (j : Nat) (b : α) (rest₂ : List (Nat × α))
    (h₁ : runFrom key i (key a) ((i, a) :: rest₁) = true)
    (h₂ : runFrom key j (key b) ((j, b) :: rest₂) = true)
    (hbreak : j ≠ i + rest₁.length + 1 ∨ key b ≠ key a) :
    groupConsec key (((i, a) :: rest₁) ++ ((j, b) :: rest₂)) =
      [(i, key a, (i, a) :: rest₁), (j, key b, (j, b) :: rest₂)] := by
  rw [runFrom_cons] at h₁
  have hstep : takeRun key i (key a) (rest₁ ++ ((j, b) :: rest₂)) = (rest₁, (j, b) :: rest₂) := by
    apply takeRun_run_break key i (key a) rest₁ ((j, b) :: rest₂) h₁.2.2
    intro j' b' l₂' heq
    injection heq with hpair htail
    injection hpair with hja hjb
    subst hja; subst hjb
    rcases hbreak with h | h
    · left; omega
    · right; exact h
  rw [List.cons_append, groupConsec, hstep]
  rw [groupConsec_single key j b rest₂ h₂]

theorem runFrom_mem {α β : Type} (key : α → β) [DecidableEq β] (s : Nat) (k : β)
    (l : List (Nat × α)) (hl : runFrom key s k l = true) :
    ∀ p ∈ l, s ≤ p.1 ∧ p.1 < s + l.length ∧ key p.2 = k := by
  induction l generalizing s with
  | nil => simp
  | cons q rest ih =>
    obtain ⟨j, a⟩ := q
    rw [runFrom_cons] at hl
    intro p hp
    simp only [List.mem_cons] at hp
    rcases hp with hp | hp
    · subst hp; exact ⟨by omega, by simp only [List.length_cons]; omega, hl.2.1⟩
    · have := ih (s + 1) hl.2.2 p hp
      exact ⟨by omega, by simp only [List.length_cons]; omega, this.2.2⟩

theorem runFrom_cover {α β : Type} (key : α → β) [DecidableEq β] (s : Nat) (k : β)
    (l : List (Nat × α)) (hl : runFrom key s k l = true) :
    ∀ c, s ≤ c → c < s + l.length → ∃ x, (c, x) ∈ l ∧ key x = k := by
  induction l generalizing s with
  | nil => intro c h₁ h₂; simp only [List.length_nil] at h₂; omega
  | cons q rest ih =>
    obtain ⟨j, a⟩ := q
    rw [runFrom_cons] at hl
    intro c h₁ h₂
    by_cases hc : c = s
    · subst hc
      exact ⟨a, by simp [hl.1], hl.2.1⟩
    · have := ih (s + 1) hl.2.2 c (by omega) (by simp only [List.length_cons] at h₂; omega)
      obtain ⟨x, hx, hk⟩ := this
      exact ⟨x, by simp [hx], hk⟩

/- ### Shape builders (anim.py lines 123-195) -/

/-- The `rect` element produced by `make_rect_tag`.  The source stores the
geometry as decimal strings in the attribute dictionary; the numbers
themselves are kept here. -/
structure RectTag where
  x : Nat
  y : Nat
  width : Nat
  height : Nat
  fill : String
deriving DecidableEq, Repr

/-- Embedding of `make_rect_tag` (anim.py lines 123-133). -/
def make_rect_tag (column length height cell_width cell_height : Nat)
    (background_color : String) : RectTag :=
  { x := column * cell_width
    y := height
    width := length * cell_width
    height := cell_height
    fill := background_color }

/-- The `text` element produced by `make_text_tag`.  `fontWeightBold` records
whether the `font-weight: bold` attribute is present. -/
structure TextTag where
  x : Nat
  textLength : Nat
  lengthAdjust : String
  fill : String
  fontWeightBold : Bool
  textContent : String
deriving DecidableEq, Repr

/-- Embedding of `make_text_tag` (anim.py lines 162-177): fixed total width
`len(text) * cell_width`, uniform glyph spacing, and every space replaced by
a non-breaking space. -/
def make_text_tag (column : Nat) (color : String) (bold : Bool) (text : String)
    (cell_width : Nat) : TextTag :=
  { x := column * cell_width
    textLength := text.length * cell_width
    lengthAdjust := "spacingAndGlyphs"
    fill := color
    fontWeightBold := bold
    textContent := String.mk (text.data.map (fun c => if c = ' ' then '\u00A0' else c)) }

/-- Python `sorted(screen_line.items())`: a screen line is a dict from column
numbers to cells, so its items have pairwise-distinct columns and `sorted`
orders them by column. -/
def sortLine (line : List (Nat × CharacterCell)) : List (Nat × CharacterCell) :=
  List.insertionSort (fun p q => p.1 ≤ q.1) line

/-- Embedding of `_render_line_bg_colors` (anim.py lines 136-159): keep only
the cells whose background differs from the default background, group
consecutive equal backgrounds, and emit one `rect` per group. -/
def render_line_bg_colors (screen_line : List (Nat × CharacterCell))
    (height cell_height cell_width : Nat) (default_bg_color : String) : List RectTag :=
  let non_default_bg_cells :=
    (sortLine screen_line).filter (fun p => p.2.background_color != default_bg_color)
  (groupConsec (fun c => c.background_color) non_default_bg_cells).map
    (fun g => make_rect_tag g.1 g.2.2.length height cell_width cell_height g.2.1)

/-- Embedding of `_render_characters` (anim.py lines 180-195): group
consecutive cells with equal `(color, bold)` and emit one `text` element per
group, joining the cells' characters. -/
def render_characters (screen_line : List (Nat × CharacterCell)) (cell_width : Nat) :
    List TextTag :=
  let line := sortLine screen_line
  (groupConsec (fun c => (c.color, c.bold)) line).map
    (fun g => make_text_tag g.1 g.2.1.1 g.2.1.2
      (String.join (g.2.2.map (fun p => p.2.text))) cell_width)

/- ### Definition store and animated groups (anim.py lines 251-322) -/

/-- Serialized form of a `text` element, the building block of the dictionary
key `etree.tostring(text_group_tag)` used for deduplication (anim.py line
284).  The exact byte format of lxml is immaterial; what matters is that the
string determines the element. -/
def serializeTextTag (t : TextTag) : String :=
  "<text x=" ++ pyStr t.x ++ " textLength=" ++ pyStr t.textLength ++
    " lengthAdjust=" ++ t.lengthAdjust ++ " fill=" ++ t.fill ++
    (if t.fontWeightBold then " font-weight=bold" else "") ++ ">" ++
    t.textContent ++ "</text>"

/-- Serialized form of the `g` element wrapping one line's text elements. -/
def serializeTextGroup (tags : List TextTag) : String :=
  "<g>" ++ String.join (tags.map serializeTextTag) ++ "</g>"

/-- Embedding of the find-or-create logic of `make_animated_group` (anim.py
lines 283-293).  `defs` are the persisted definitions, `new_definitions` the
ones minted earlier in the same timing bucket; both map serialized content to
the definition's reference id.  A fresh id is
`'g' + str(len(defs) + len(new_definitions) + 1)`. -/
def find_or_create_definition (defs new_definitions : List (String × String))
    (frag : String) : String × List (String × String) :=
  match defs.lookup frag with
  | some group_id => (group_id, new_definitions)
  | none =>
    match new_definitions.lookup frag with
    | some group_id => (group_id, new_definitions)
    | none =>
      let group_id := "g" ++ pyStr (defs.length + new_definitions.length + 1)
      (group_id, new_definitions ++ [(frag, group_id)])

/-- Id of the very last SVG animation (`LAST_ANIMATION_ID` in anim.py). -/
def LAST_ANIMATION_ID : String := "anim_last"

/-- The children appended to an animated group: background `rect` elements,
`use` references to text-line definitions, and the single `animate`
directive. -/
inductive GroupChild where
  | rectChild (r : RectTag)
  | useChild (href : String) (y : Nat)
  | animateChild (beginAttr : String) (dur : String) (id : Option String)
deriving DecidableEq, Repr

/-- The `begin` attribute of the toggle directive (anim.py lines 305-309):
`'0ms; anim_last.end'` for time 0, and
`str(time) + 'ms; anim_last.end+' + str(time) + 'ms'` otherwise. -/
def begin_time (time : Nat) : String :=
  if time = 0 then "0ms; " ++ LAST_ANIMATION_ID ++ ".end"
  else pyStr time ++ "ms; " ++ LAST_ANIMATION_ID ++ ".end+" ++ pyStr time ++ "ms"

/-- A line event record (`CharacterCellLineEvent` in anim.py). -/
structure CharacterCellLineEvent where
  row : Nat
  line : List (Nat × CharacterCell)
  time : Nat
  duration : Nat
deriving DecidableEq, Repr

/-- The per-record loop of `make_animated_group` (anim.py lines 267-301):
for each record append its background rects and one `use` reference to the
interned definition of its text group, threading the bucket's new
definitions. -/
def make_animated_group_children (cell_height cell_width : Nat) (default_bg_color : String)
    (defs : List (String × String)) :
    List CharacterCellLineEvent → List (String × String) →
      List GroupChild × List (String × String)
  | [], new_definitions => ([], new_definitions)
  | r :: rs, new_definitions =>
    let rects := (render_line_bg_colors r.line (r.row * cell_height) cell_height
      cell_width default_bg_color).map GroupChild.rectChild
    let frag := serializeTextGroup (render_characters r.line cell_width)
    let t := find_or_create_definition defs new_definitions frag
    let rest := make_animated_group_children cell_height cell_width default_bg_color defs
      rs t.2
    (rects ++ [GroupChild.useChild ("#" ++ t.1) (r.row * cell_height)] ++ rest.1, rest.2)

/-- Embedding of `make_animated_group` (anim.py lines 251-322): the group's
children followed by exactly one `animate` directive with the looping
`begin` attribute and duration `str(duration) + 'ms'`; also returns the
definitions newly created for this bucket. -/
def make_animated_group (records : List CharacterCellLineEvent)
    (time duration cell_height cell_width : Nat) (default_bg_color : String)
    (defs : List (String × String)) : List GroupChild × List (String × String) :=
  let t := make_animated_group_children cell_height cell_width default_bg_color defs records []
  (t.1 ++ [GroupChild.animateChild (begin_time time) (pyStr duration ++ "ms") none], t.2)

/- ### Template geometry scaling (`resize_template`, anim.py lines 331-399) -/

/-- An attribute value as far as `int()` is concerned: either a string that
parses as an integer (carrying its value) or one that does not. -/
inductive AttrVal where
  | intVal (n : Int)
  | rawVal (s : String)
deriving DecidableEq, Repr

/-- The sizing attributes of a frame element consulted by
`resize_template.scale`: the `viewBox` token list (after `replace(',', ' ')
.split()`), and the optional `width`/`height` attributes. -/
structure SizedElem where
  viewBox : Option (List AttrVal)
  width : Option AttrVal
  height : Option AttrVal
deriving DecidableEq, Repr

/-- Left-to-right evaluation of `[int(n) for n in viewbox]`: the first
non-integral token raises `ValueError`. -/
def parseInts : List AttrVal → Except PyExc (List Int)
  | [] => pure []
  | .intVal n :: rest => do pure (n :: (← parseInts rest))
  | .rawVal _ :: _ => throw (.valueError "invalid literal for int with base 10")

/-- Scaling of one optional `width`/`height` attribute (anim.py lines
344-355): absent attributes are left alone, an integral attribute is shifted
by the delta, and a non-integral one raises `TemplateError`. -/
def scaleAttr (name : String) (delta : Int) : Option AttrVal → Except PyExc (Option AttrVal)
  | none => pure none
  | some (.intVal n) => pure (some (.intVal (n + delta)))
  | some (.rawVal _) =>
    throw (.templateError (name ++ " attribute must be in user units"))

/-- Embedding of the inner function `resize_template.scale` (anim.py lines
333-356): unpack the 4-component `viewBox` (a missing `viewBox` raises
`TemplateError`; a non-integral token or a token count other than 4 raises
an uncaught `ValueError`), grow its extent components while keeping the
origin, then shift `width` and `height` by the same deltas. -/
def scale (cell_width cell_height : Int) (template_columns template_rows columns rows : Int)
    (element : SizedElem) : Except PyExc SizedElem := do
  match element.viewBox with
  | none => throw (.templateError "Missing viewBox for element")
  | some viewbox =>
    let ints ← parseInts viewbox
    match ints with
    | [vb_min_x, vb_min_y, vb_width, vb_height] =>
      let vb_width := vb_width + cell_width * (columns - template_columns)
      let vb_height := vb_height + cell_height * (rows - template_rows)
      let w ← scaleAttr "width" (cell_width * (columns - template_columns)) element.width
      let h ← scaleAttr "height" (cell_height * (rows - template_rows)) element.height
      pure { viewBox := some [.intVal vb_min_x, .intVal vb_min_y,
               .intVal vb_width, .intVal vb_height]
             width := w
             height := h }
    | _ => throw (.valueError "not enough values to unpack")

/-- The parts of a parsed template document consulted by `resize_template`
(anim.py lines 358-399).  `settings` is `none` when the document has no
`template_settings` element, `some none` when it has one but no
`screen_geometry` child carrying both a `columns` and a `rows` attribute,
and `some (some (c, r))` otherwise.  `screen` is the inner frame
`svg[@id="screen"]`, when present.  `generatedStyle` records whether a
`style[@class="generated"]` element is present (used later by
`add_css_variables`). -/
structure TemplateDoc where
  root : SizedElem
  settings : Option (Option (AttrVal × AttrVal))
  screen : Option SizedElem
  generatedStyle : Bool
deriving DecidableEq, Repr

/-- Embedding of `resize_template` (anim.py lines 358-399), starting after
the XML parse: extract the screen geometry, check it, scale the root frame,
then the inner `screen` frame, and finally strip the private
`template_settings` element. -/
def resize_template (doc : TemplateDoc) (columns rows cell_width cell_height : Int) :
    Except PyExc TemplateDoc := do
  match doc.settings with
  | none => throw (.templateError "Missing template_settings element in definitions")
  | some none => throw (.templateError "Missing screen_geometry element in template_settings")
  | some (some (columnsAttr, rowsAttr)) =>
    match columnsAttr, rowsAttr with
    | .intVal template_columns, .intVal template_rows =>
      if template_rows ≤ 0 ∨ template_columns ≤ 0 then
        throw (.templateError "expected positive integers")
      else do
        let root ← scale cell_width cell_height template_columns template_rows columns rows
          doc.root
        match doc.screen with
        | none => throw (.templateError "svg element with id screen not found")
        | some screenElem => do
          let screenElem ← scale cell_width cell_height template_columns template_rows
            columns rows screenElem
          pure { root := root, settings := none, screen := some screenElem,
                 generatedStyle := doc.generatedStyle }
    | _, _ => throw (.templateError "expected positive integers")

/- ### The full render pass (`_render_animation`, anim.py lines 402-479) -/

/-- The header record (`CharacterCellConfig` in anim.py). -/
structure CharacterCellConfig where
  width : Int
  height : Int
  text_color : String
  background_color : String
deriving DecidableEq, Repr

/-- Consume the longest prefix of `l` whose key equals `k` (the engine of
`itertools.groupby` with a plain key function). -/
def spanKey {α β : Type} (key : α → β) [DecidableEq β] (k : β) :
    List α → List α × List α
  | [] => ([], [])
  | a :: rest =>
    if key a = k then
      let t := spanKey key k rest
      (a :: t.1, t.2)
    else ([], a :: rest)

theorem spanKey_append {α β : Type} (key : α → β) [DecidableEq β] (k : β) (l : List α) :
    (spanKey key k l).1 ++ (spanKey key k l).2 = l := by
  induction l with
  | nil => simp [spanKey]
  | cons a rest ih =>
    simp only [spanKey]
    split
    · simp [ih]
    · simp

theorem spanKey_rem_length {α β : Type} (key : α → β) [DecidableEq β] (k : β) (l : List α) :
    (spanKey key k l).2.length ≤ l.length := by
  have h := congrArg List.length (spanKey_append key k l)
  simp only [List.length_append] at h
  omega

/-- `itertools.groupby(records, key)`: contiguous records with equal keys are
grouped together (no global re-sort). -/
def pyGroupBy {α β : Type} (key : α → β) [DecidableEq β] : List α → List (β × List α)
  | [] => []
  | a :: rest =>
    (key a, a :: (spanKey key (key a) rest).1) :: pyGroupBy key (spanKey key (key a) rest).2
termination_by l => l.length
decreasing_by
  simp only [List.length_cons]
  exact Nat.lt_succ_of_le (spanKey_rem_length _ _ _)

/-- The grouped event loop of `_render_animation` (anim.py lines 429-446):
for each `(time, duration)` bucket build one animated group, merge its new
definitions into the store (`defs.update(new_defs)`; the new keys are fresh,
so the update is an append), and remember the running
`animation_duration = line_time + line_duration`.  Returns the groups in
order, the final definition store and the duration of the last bucket. -/
def render_groups_loop (cell_height cell_width : Nat) (default_bg_color : String)
    (defs : List (String × String)) :
    List ((Nat × Nat) × List CharacterCellLineEvent) →
      List (List GroupChild) × List (String × String) × Option Nat
  | [] => ([], defs, none)
  | ((line_time, line_duration), record_group) :: rest =>
    let t := make_animated_group record_group line_time line_duration cell_height cell_width
      default_bg_color defs
    let r := render_groups_loop cell_height cell_width default_bg_color (defs ++ t.2) rest
    (t.1 :: r.1, r.2.1, some (r.2.2.getD (line_time + line_duration)))

/-- The loop-anchor post-pass of `_render_animation` (anim.py lines 450-453):
once the stream is exhausted, give the (asserted unique) `animate` directive
of the most recently built group the id `anim_last`. -/
def set_last_animation_id (children : List GroupChild) : List GroupChild :=
  children.map (fun c => match c with
    | .animateChild b d _ => .animateChild b d (some LAST_ANIMATION_ID)
    | c => c)

/-- Apply the post-pass to the last group, when there is one. -/
def tag_loop_anchor (groups : List (List GroupChild)) : List (List GroupChild) :=
  match groups.getLast? with
  | none => groups
  | some last => groups.dropLast ++ [set_last_animation_id last]

/-- Python `'{}ms'.format(animation_duration)` where `animation_duration` is
`None` when no event bucket was processed: `str(None)` is the literal
`"None"`. -/
def formatDurationMs : Option Nat → String
  | none => "None" ++ "ms"
  | some n => pyStr n ++ "ms"

/-- Embedding of `add_css_variables` (anim.py lines 460-479): requires the
template's `style[@class="generated"]` element and rewrites its text to the
three CSS variables. -/
def add_css_variables (doc : TemplateDoc) (foreground_color background_color : String)
    (animation_duration : Option Nat) : Except PyExc (List (String × String)) :=
  if doc.generatedStyle then
    pure [("--foreground-color", foreground_color),
          ("--background-color", background_color),
          ("--animation-duration", formatDurationMs animation_duration)]
  else
    throw (.templateError "Missing style class generated element in defs")

/-- Modelled from the spec: the bundled base template (`data/templates/carbon.svg`,
not part of the sources under verification).  Per the spec it supplies an
outer coordinate frame and an inner frame named "screen", both with integral
sizing attributes, embedded sizing metadata (`template_columns = 80`,
`template_rows = 24`), and the generated-style element required by
`add_css_variables`. -/
def carbonTemplate : TemplateDoc :=
  { root := { viewBox := some [.intVal 0, .intVal 0, .intVal 656, .intVal 504]
              width := some (.intVal 656)
              height := some (.intVal 504) }
    settings := some (some (.intVal 80, .intVal 24))
    screen := some { viewBox := some [.intVal 0, .intVal 0, .intVal 640, .intVal 408]
                     width := some (.intVal 640)
                     height := some (.intVal 408) }
    generatedStyle := true }

/-- The result of a full render pass: the scaled document, the visibility
groups in document order (after the loop-anchor post-pass), the final
definition store, the total duration and the generated CSS variables. -/
structure RenderResult where
  doc : TemplateDoc
  groups : List (List GroupChild)
  defs : List (String × String)
  animation_duration : Option Nat
  cssVars : List (String × String)
deriving DecidableEq, Repr

/-- Embedding of `_render_animation` (anim.py lines 402-457): read the header
record, resize the bundled template, process the event records bucket by
bucket, tag the last animation for looping, and inject the CSS variables. -/
def render_animation (header : CharacterCellConfig) (records : List CharacterCellLineEvent)
    (cell_width cell_height : Nat) : Except PyExc RenderResult := do
  let root ← resize_template carbonTemplate header.width header.height cell_width cell_height
  let buckets := pyGroupBy (fun r : CharacterCellLineEvent => (r.time, r.duration)) records
  let t := render_groups_loop cell_height cell_width header.background_color [] buckets
  let groups := tag_loop_anchor t.1
  let cssVars ← add_css_variables root header.text_color header.background_color t.2.2
  pure { doc := root, groups := groups, defs := t.2.1,
         animation_duration := t.2.2, cssVars := cssVars }

/- ### Claim theorems -/

theorem string_append_data (s t : String) : (s ++ t).data = s.data ++ t.data := rfl

/-- C1: every timing bucket's toggle directive has exactly the two activation
triggers given by the bucket's absolute time: for `time == 0` the triggers
`0ms` and `anim_last.end`, for `time > 0` the triggers `str(time) + "ms"` and
`anim_last.end+str(time) + "ms"`, joined by the SMIL separator `"; "`. -/
theorem toggle_directive_triggers (records : List CharacterCellLineEvent)
    (time duration cell_height cell_width : Nat) (default_bg_color : String)
    (defs : List (String × String)) :
    ∃ cs, (make_animated_group records time duration cell_height cell_width
        default_bg_color defs).1 =
      cs ++ [GroupChild.animateChild (begin_time time) (pyStr duration ++ "ms") none] ∧
    begin_time time =
      (pyStr time ++ "ms") ++ "; " ++
        (if time = 0 then LAST_ANIMATION_ID ++ ".end"
         else LAST_ANIMATION_ID ++ ".end+" ++ (pyStr time ++ "ms")) := by
  refine ⟨(make_animated_group_children cell_height cell_width default_bg_color defs
    records []).1, rfl, ?_⟩
  by_cases h : time = 0
  · subst h
    simp only [begin_time, if_pos rfl, if_true]
    rfl
  · simp only [begin_time, if_neg h]
    apply String.ext
    simp only [string_append_data]
    simp [LAST_ANIMATION_ID]

/-- C9: with `reverse` set, `from_pyte` resolves to exactly the swap of the
`(text_color, background_color)` pair obtained with `reverse` unset, all
other inputs equal; the swap happens after all other resolution rules. -/
theorem reverse_swaps_resolved_colors (char : PyteChar) (palette : Palette) :
    CharacterCell.from_pyte { char with reverse := true } palette =
      (CharacterCell.from_pyte { char with reverse := false } palette).map
        (fun cell =>
          CharacterCell.mk cell.text cell.background_color cell.color cell.bold) := by
  obtain ⟨d, fg, bg, bo, rv⟩ := char
  have hfg : resolveFg ⟨d, fg, bg, bo, true⟩ palette = resolveFg ⟨d, fg, bg, bo, false⟩ palette :=
    rfl
  have hbg : resolveBg ⟨d, fg, bg, bo, true⟩ palette = resolveBg ⟨d, fg, bg, bo, false⟩ palette :=
    rfl
  simp only [CharacterCell.from_pyte, hfg, hbg]
  cases resolveFg ⟨d, fg, bg, bo, false⟩ palette with
  | error e => rfl
  | ok tc =>
    cases resolveBg ⟨d, fg, bg, bo, false⟩ palette with
    | error e => rfl
    | ok bgc => rfl

/-- C10: a stream consisting of only the header record renders without
raising: no visibility group is appended (so no element carries the loop
anchor), no definitions are created, no duration is recorded, and the
generated `--animation-duration` variable is the literal string `"Nonems"`
(Python renders the absent duration `None` into `'{}ms'.format`). -/
theorem header_only_render (header : CharacterCellConfig) (cell_width cell_height : Nat) :
    (render_animation header [] cell_width cell_height).toOption.map
        (fun r => (r.groups, r.defs, r.animation_duration, r.cssVars)) =
      some ([], [], none,
        [("--foreground-color", header.text_color),
         ("--background-color", header.background_color),
         ("--animation-duration", "Nonems")]) := by
  simp only [render_animation, resize_template, carbonTemplate, scale, parseInts, scaleAttr,
    pyGroupBy, render_groups_loop, tag_loop_anchor, add_css_variables, formatDurationMs]
  rfl

instance {e a : Type} [DecidableEq e] [DecidableEq a] : DecidableEq (Except e a) := by
  intro x y
  cases x <;> cases y <;> first
    | (apply isFalse; intro h; exact Except.noConfusion h)
    | (rename_i u v
       exact if h : u = v then isTrue (by rw [h]) else isFalse (by intro hc; injection hc; tauto))

/-- A 16-color palette with pairwise distinct entries, for concrete checks. -/
def palette16 : Palette :=
  { foreground := "fgcol"
    background := "bgcol"
    colors := [(0, "c0"), (1, "c1"), (2, "c2"), (3, "c3"), (4, "c4"), (5, "c5"), (6, "c6"),
               (7, "c7"), (8, "c8"), (9, "c9"), (10, "c10"), (11, "c11"), (12, "c12"),
               (13, "c13"), (14, "c14"), (15, "c15")] }

/-- C3 counterexample: the background-color descriptor is NOT promoted to its
bright counterpart under `bold=true`.  With a full 16-color palette and
`bg='red'`, `bold=True`, the resolved background is `palette[1]`, not the
bright index `palette[9]` the claim requires, even though index 9 is a key
of the palette. -/
theorem bold_background_not_promoted :
    CharacterCell.from_pyte ⟨"x", "default", "red", true, false⟩ palette16 =
      .ok ⟨"x", "fgcol", "c1", true⟩ ∧
    palette16.colors.lookup 9 = some "c9" ∧ ("c1" : String) ≠ "c9" := by
  refine ⟨by decide, by decide, by decide⟩

theorem baseColors_facts :
    ∀ s ∈ baseColors, s ≠ "default" ∧ strStartsWith s "bright" = false := by decide

theorem allColors_ne_default : ∀ s ∈ allColors, s ≠ "default" := by decide

theorem resolveFg_bold_named (data bgs : String) (rv : Bool) (name : String) (i : Nat)
    (pal : Palette) (hnd : name ≠ "default") (hnb : strStartsWith name "bright" = false)
    (hlook : colorNumbers.lookup ("bright" ++ name) = some i) :
    resolveFg ⟨data, name, bgs, true, rv⟩ pal =
      match pal.colors.lookup (if (pal.colors.lookup i).isSome then i else i % 8) with
      | some c => .ok c
      | none => .error .keyError := by
  simp only [resolveFg]
  rw [if_neg hnd]
  simp only [hnb, Bool.not_false, Bool.and_self, if_true]
  rw [hlook]
  cases hi9 : pal.colors.lookup i with
  | some c => simp only [hi9, Option.isSome_some, if_true]; rfl
  | none =>
    simp only [hi9, Option.isSome_none, Bool.false_eq_true, if_false]
    cases h8 : pal.colors.lookup (i % 8) <;> simp only [h8] <;> rfl

/-- C3 amended: the bright-promotion/mod-8-fallback rule holds for the
text-color descriptor (first conjunct); the background-color descriptor of
the same cell resolves a symbolic name by direct palette-index lookup, with
no bold promotion and no fallback (second conjunct, for any `bold`). -/
theorem bold_promotion_text_color_only :
    (∀ fg ∈ baseColors, ∀ i, colorNumbers.lookup ("bright" ++ fg) = some i →
      ∀ (data : String) (pal : Palette),
        (CharacterCell.from_pyte ⟨data, fg, "default", true, false⟩ pal).toOption.map
            (fun cell => cell.color) =
          (pal.colors.lookup i).or (pal.colors.lookup (i % 8))) ∧
    (∀ bg ∈ allColors, ∀ i, colorNumbers.lookup bg = some i →
      ∀ (data : String) (pal : Palette) (bold : Bool),
        (CharacterCell.from_pyte ⟨data, "default", bg, bold, false⟩ pal).toOption.map
            (fun cell => cell.background_color) =
          pal.colors.lookup i) := by
  constructor
  · intro fg hfg i hi data pal
    obtain ⟨hnd, hnb⟩ := baseColors_facts fg hfg
    simp only [CharacterCell.from_pyte,
      resolveFg_bold_named data "default" false fg i pal hnd hnb hi]
    have hbg : resolveBg ⟨data, fg, "default", true, false⟩ pal = .ok pal.background := rfl
    rw [hbg]
    cases h9 : pal.colors.lookup i with
    | some c =>
      simp only [h9, Option.isSome_some, if_true]
      rfl
    | none =>
      simp only [h9, Option.isSome_none, Bool.false_eq_true, if_false]
      cases h8 : pal.colors.lookup (i % 8) <;> simp only [h8] <;> rfl
  · intro bg hbg i hi data pal bold
    have hnd : bg ≠ "default" := allColors_ne_default bg hbg
    have hfg : resolveFg ⟨data, "default", bg, bold, false⟩ pal = .ok pal.foreground := rfl
    have hbgr : resolveBg ⟨data, "default", bg, bold, false⟩ pal =
        match pal.colors.lookup i with
        | some c => .ok c
        | none => .error .keyError := by
      simp only [resolveBg]
      rw [if_neg hnd, hi]
      rfl
    simp only [CharacterCell.from_pyte, hfg, hbgr]
    cases h : pal.colors.lookup i <;> simp only [h] <;> rfl

/-- C3 amended, witness: with the full palette, a bold red foreground
resolves through bright index 9, and a bold red background resolves through
index 1 directly. -/
theorem bold_promotion_text_color_only_witness :
    ("red" ∈ baseColors ∧ colorNumbers.lookup ("bright" ++ "red") = some 9 ∧
      (CharacterCell.from_pyte ⟨"x", "red", "default", true, false⟩ palette16).toOption.map
          (fun cell => cell.color) =
        (palette16.colors.lookup 9).or (palette16.colors.lookup (9 % 8))) ∧
    ("red" ∈ allColors ∧ colorNumbers.lookup "red" = some 1 ∧
      (CharacterCell.from_pyte ⟨"x", "default", "red", true, false⟩ palette16).toOption.map
          (fun cell => cell.background_color) =
        palette16.colors.lookup 1) :=
  ⟨⟨by decide, by decide,
      bold_promotion_text_color_only.1 "red" (by decide) 9 (by decide) "x" palette16⟩,
    ⟨by decide, by decide,
      bold_promotion_text_color_only.2 "red" (by decide) 1 (by decide) "x" palette16 true⟩⟩

/-- Shift an integral attribute value by a delta (statement helper). -/
def shiftAttr (delta : Int) : AttrVal → AttrVal
  | .intVal n => .intVal (n + delta)
  | .rawVal s => .rawVal s

theorem scale_ok (cell_width cell_height tc tr c r : Int) (e : SizedElem)
    (x y w h : Int) (hvb : e.viewBox = some [.intVal x, .intVal y, .intVal w, .intVal h])
    (hw : ∀ s, e.width ≠ some (.rawVal s)) (hh : ∀ s, e.height ≠ some (.rawVal s)) :
    scale cell_width cell_height tc tr c r e =
      .ok { viewBox := some [.intVal x, .intVal y,
              .intVal (w + cell_width * (c - tc)), .intVal (h + cell_height * (r - tr))]
            width := e.width.map (shiftAttr (cell_width * (c - tc)))
            height := e.height.map (shiftAttr (cell_height * (r - tr))) } := by
  simp only [scale, hvb]
  have hwc : scaleAttr "width" (cell_width * (c - tc)) e.width =
      .ok (e.width.map (shiftAttr (cell_width * (c - tc)))) := by
    cases hew : e.width with
    | none => rfl
    | some v =>
      cases v with
      | intVal n => rfl
      | rawVal s => exact absurd hew (hw s)
  have hhc : scaleAttr "height" (cell_height * (r - tr)) e.height =
      .ok (e.height.map (shiftAttr (cell_height * (r - tr)))) := by
    cases heh : e.height with
    | none => rfl
    | some v =>
      cases v with
      | intVal n => rfl
      | rawVal s => exact absurd heh (hh s)
  simp only [parseInts, hwc, hhc]
  rfl

/-- C6: for a template whose sizing metadata declares `tc x tr` at cell size
`cell_width x cell_height`, rescaling to `c x r` grows each frame's viewbox
width by `cell_width * (c - tc)` and height by `cell_height * (r - tr)`,
leaves the viewbox origin unchanged, and shifts present `width`/`height`
attributes by the same deltas. -/
theorem resize_template_scales (doc : TemplateDoc) (tc tr : Int)
    (hset : doc.settings = some (some (.intVal tc, .intVal tr)))
    (htc : 0 < tc) (htr : 0 < tr)
    (x y w h : Int)
    (hvb : doc.root.viewBox = some [.intVal x, .intVal y, .intVal w, .intVal h])
    (hw : ∀ s, doc.root.width ≠ some (.rawVal s))
    (hh : ∀ s, doc.root.height ≠ some (.rawVal s))
    (scr : SizedElem) (hscr : doc.screen = some scr)
    (sx sy sw sh : Int)
    (hsvb : scr.viewBox = some [.intVal sx, .intVal sy, .intVal sw, .intVal sh])
    (hsw : ∀ s, scr.width ≠ some (.rawVal s)) (hsh : ∀ s, scr.height ≠ some (.rawVal s))
    (c r cell_width cell_height : Int) :
    resize_template doc c r cell_width cell_height =
      .ok { root := { viewBox := some [.intVal x, .intVal y,
                        .intVal (w + cell_width * (c - tc)),
                        .intVal (h + cell_height * (r - tr))]
                      width := doc.root.width.map (shiftAttr (cell_width * (c - tc)))
                      height := doc.root.height.map (shiftAttr (cell_height * (r - tr))) }
            settings := none
            screen := some { viewBox := some [.intVal sx, .intVal sy,
                               .intVal (sw + cell_width * (c - tc)),
                               .intVal (sh + cell_height * (r - tr))]
                             width := scr.width.map (shiftAttr (cell_width * (c - tc)))
                             height := scr.height.map (shiftAttr (cell_height * (r - tr))) }
            generatedStyle := doc.generatedStyle } := by
  simp only [resize_template, hset]
  rw [if_neg (by omega)]
  rw [scale_ok cell_width cell_height tc tr c r doc.root x y w h hvb hw hh]
  simp only [hscr]
  rw [scale_ok cell_width cell_height tc tr c r scr sx sy sw sh hsvb hsw hsh]
  rfl

/-- C6 witness: the spec's worked example on the bundled template model:
80x24 at cell size 8x17 rescaled to 100x30. -/
theorem resize_template_scales_witness :
    (0 : Int) < 80 ∧
    resize_template carbonTemplate 100 30 8 17 =
      .ok { root := { viewBox := some [.intVal 0, .intVal 0,
                        .intVal (656 + 8 * (100 - 80)), .intVal (504 + 17 * (30 - 24))]
                      width := (carbonTemplate.root.width).map (shiftAttr (8 * (100 - 80)))
                      height := (carbonTemplate.root.height).map (shiftAttr (17 * (30 - 24))) }
            settings := none
            screen := some { viewBox := some [.intVal 0, .intVal 0,
                               .intVal (640 + 8 * (100 - 80)), .intVal (408 + 17 * (30 - 24))]
                             width := (some (AttrVal.intVal 640)).map (shiftAttr (8 * (100 - 80)))
                             height := (some (AttrVal.intVal 408)).map
                               (shiftAttr (17 * (30 - 24))) }
            generatedStyle := carbonTemplate.generatedStyle } :=
  ⟨by decide,
    resize_template_scales carbonTemplate 80 24 rfl (by decide) (by decide)
      0 0 656 504 rfl (by intro s h; simp [carbonTemplate] at h)
      (by intro s h; simp [carbonTemplate] at h)
      { viewBox := some [.intVal 0, .intVal 0, .intVal 640, .intVal 408]
        width := some (.intVal 640)
        height := some (.intVal 408) } rfl
      0 0 640 408 rfl (by intro s h; simp [carbonTemplate] at h)
      (by intro s h; simp [carbonTemplate] at h)
      100 30 8 17⟩

/- ### C7: characterization of TemplateError -/

/-- A present but non-integral attribute. -/
def attrIsRaw : Option AttrVal → Bool
  | some (.rawVal _) => true
  | _ => false

/-- The screen-geometry metadata is unusable: a non-integral `columns` or
`rows` attribute, or a non-positive value. -/
def geomBad : AttrVal → AttrVal → Bool
  | .intVal tc, .intVal tr => decide (tr ≤ 0 ∨ tc ≤ 0)
  | _, _ => true

/-- The embedded sizing metadata is absent or unusable. -/
def settingsBad : Option (Option (AttrVal × AttrVal)) → Bool
  | none => true
  | some none => true
  | some (some (a, b)) => geomBad a b

/-- A frame that makes `scale` raise `TemplateError`: missing `viewBox`, or a
present but non-integral `width`/`height`. -/
def frameBad (e : SizedElem) : Bool :=
  e.viewBox.isNone || attrIsRaw e.width || attrIsRaw e.height

/-- The inner frame is missing or bad. -/
def screenBad : Option SizedElem → Bool
  | none => true
  | some scr => frameBad scr

/-- The amended C7 error condition: `resize_template` raises `TemplateError`
exactly under this predicate (provided no malformed `viewBox` raises a
`ValueError` first). -/
def templateErrCond (doc : TemplateDoc) : Bool :=
  settingsBad doc.settings || frameBad doc.root || screenBad doc.screen

/-- A `viewBox`, when present, parses to exactly four integers (so the
uncaught-`ValueError` paths of `scale` are not taken). -/
def viewBoxWellFormed : Option (List AttrVal) → Bool
  | none => true
  | some vb =>
    match parseInts vb with
    | .ok ints => decide (ints.length = 4)
    | .error _ => false

/-- Both frames' viewBoxes, when present, are well formed. -/
def docViewBoxesWellFormed (doc : TemplateDoc) : Bool :=
  viewBoxWellFormed doc.root.viewBox &&
    (match doc.screen with
     | none => true
     | some scr => viewBoxWellFormed scr.viewBox)

theorem except_throw_eq {α : Type} (x : PyExc) : (throw x : Except PyExc α) = Except.error x := rfl

theorem except_bind_ok {α β : Type} (x : α) (f : α → Except PyExc β) :
    (Except.ok x >>= f) = f x := rfl

theorem except_bind_err {α β : Type} (e : PyExc) (f : α → Except PyExc β) :
    ((Except.error e : Except PyExc α) >>= f) = Except.error e := rfl

theorem except_pure_eq {α : Type} (x : α) : (pure x : Except PyExc α) = Except.ok x := rfl

theorem parseInts_ok_shape (vb : List AttrVal) (ints : List Int)
    (h : parseInts vb = .ok ints) : vb = ints.map AttrVal.intVal := by
  induction vb generalizing ints with
  | nil =>
    simp only [parseInts, except_pure_eq, Except.ok.injEq] at h
    subst h; rfl
  | cons v rest ih =>
    cases v with
    | rawVal s => simp [parseInts, except_throw_eq] at h
    | intVal n =>
      simp only [parseInts] at h
      cases hr : parseInts rest with
      | error err => rw [hr, except_bind_err] at h; cases h
      | ok l =>
        rw [hr, except_bind_ok, except_pure_eq] at h
        injection h with h
        subst h
        simp [ih l hr]

theorem scale_err_iff (cell_width cell_height tc tr c r : Int) (e : SizedElem)
    (hwf : viewBoxWellFormed e.viewBox = true) :
    ((∃ msg, scale cell_width cell_height tc tr c r e = .error (.templateError msg)) ↔
      frameBad e = true) ∧
    ((∃ e', scale cell_width cell_height tc tr c r e = .ok e') ↔ frameBad e = false) := by
  cases hevb : e.viewBox with
  | none =>
    constructor
    · simp only [frameBad, hevb, Option.isNone_none, Bool.true_or, iff_true]
      exact ⟨"Missing viewBox for element", by simp [scale, hevb, except_throw_eq]⟩
    · simp only [frameBad, hevb, Option.isNone_none, Bool.true_or]
      constructor
      · rintro ⟨e', he'⟩
        simp [scale, hevb, except_throw_eq] at he'
      · intro h; exact absurd h (by simp)
  | some vb =>
    rw [hevb] at hwf
    rw [show viewBoxWellFormed (some vb) =
        (match parseInts vb with
         | Except.ok ints => decide (ints.length = 4)
         | Except.error _ => false) from rfl] at hwf
    revert hwf
    cases hp : parseInts vb with
    | error err => intro hwf; simp at hwf
    | ok ints =>
      intro hwf
      simp only [decide_eq_true_eq] at hwf
      obtain ⟨a, b, w0, h0, rfl⟩ : ∃ a b w0 h0, ints = [a, b, w0, h0] := by
        rcases ints with _ | ⟨a, _ | ⟨b, _ | ⟨c, _ | ⟨d, _ | ⟨f, t⟩⟩⟩⟩⟩ <;> simp_all
      have hvb4 : e.viewBox =
          some [.intVal a, .intVal b, .intVal w0, .intVal h0] := by
        rw [hevb, parseInts_ok_shape vb _ hp]; rfl
      have hfb : frameBad e = (attrIsRaw e.width || attrIsRaw e.height) := by
        simp [frameBad, hevb]
      cases hew : e.width with
      | some v =>
        cases v with
        | rawVal s =>
          have hsc : scale cell_width cell_height tc tr c r e =
              .error (.templateError "width attribute must be in user units") := by
            simp [scale, hvb4, parseInts, scaleAttr, hew,
              except_bind_ok, except_bind_err, except_throw_eq, except_pure_eq]
          constructor
          · simp only [hfb, hew, attrIsRaw, Bool.true_or, iff_true]
            exact ⟨_, hsc⟩
          · constructor
            · rintro ⟨e', he'⟩; rw [hsc] at he'; cases he'
            · intro hcon; rw [hfb, hew] at hcon; simp [attrIsRaw] at hcon
        | intVal n =>
          have hw : ∀ s, e.width ≠ some (.rawVal s) := by
            intro s hcon; rw [hew] at hcon; cases hcon
          cases heh : e.height with
          | some v2 =>
            cases v2 with
            | rawVal s2 =>
              have hsc : scale cell_width cell_height tc tr c r e =
                  .error (.templateError "height attribute must be in user units") := by
                simp [scale, hvb4, parseInts, scaleAttr, hew, heh,
                  except_bind_ok, except_bind_err, except_throw_eq, except_pure_eq]
              constructor
              · simp only [hfb, hew, heh, attrIsRaw, Bool.or_true, iff_true]
                exact ⟨_, hsc⟩
              · constructor
                · rintro ⟨e', he'⟩; rw [hsc] at he'; cases he'
                · intro hcon; rw [hfb, hew, heh] at hcon; simp [attrIsRaw] at hcon
            | intVal n2 =>
              have hh : ∀ s, e.height ≠ some (.rawVal s) := by
                intro s hcon; rw [heh] at hcon; cases hcon
              have hsc := scale_ok cell_width cell_height tc tr c r e a b w0 h0 hvb4 hw hh
              have hfbf : frameBad e = false := by
                rw [hfb, hew, heh]; rfl
              rw [hfbf]
              constructor
              · constructor
                · rintro ⟨msg, hmsg⟩; rw [hsc] at hmsg; cases hmsg
                · intro h; cases h
              · constructor
                · intro _; rfl
                · intro _; exact ⟨_, hsc⟩
          | none =>
            have hh : ∀ s, e.height ≠ some (.rawVal s) := by
              intro s hcon; rw [heh] at hcon; cases hcon
            have hsc := scale_ok cell_width cell_height tc tr c r e a b w0 h0 hvb4 hw hh
            have hfbf : frameBad e = false := by
              rw [hfb, hew, heh]; rfl
            rw [hfbf]
            constructor
            · constructor
              · rintro ⟨msg, hmsg⟩; rw [hsc] at hmsg; cases hmsg
              · intro h; cases h
            · constructor
              · intro _; rfl
              · intro _; exact ⟨_, hsc⟩
      | none =>
        have hw : ∀ s, e.width ≠ some (.rawVal s) := by
          intro s hcon; rw [hew] at hcon; cases hcon
        cases heh : e.height with
        | some v2 =>
          cases v2 with
          | rawVal s2 =>
            have hsc : scale cell_width cell_height tc tr c r e =
                .error (.templateError "height attribute must be in user units") := by
              simp [scale, hvb4, parseInts, scaleAttr, hew, heh,
                except_bind_ok, except_bind_err, except_throw_eq, except_pure_eq]
            constructor
            · simp only [hfb, hew, heh, attrIsRaw, Bool.or_true, iff_true]
              exact ⟨_, hsc⟩
            · constructor
              · rintro ⟨e', he'⟩; rw [hsc] at he'; cases he'
              · intro hcon; rw [hfb, hew, heh] at hcon; simp [attrIsRaw] at hcon
          | intVal n2 =>
            have hh : ∀ s, e.height ≠ some (.rawVal s) := by
              intro s hcon; rw [heh] at hcon; cases hcon
            have hsc := scale_ok cell_width cell_height tc tr c r e a b w0 h0 hvb4 hw hh
            have hfbf : frameBad e = false := by
              rw [hfb, hew, heh]; rfl
            rw [hfbf]
            constructor
            · constructor
              · rintro ⟨msg, hmsg⟩; rw [hsc] at hmsg; cases hmsg
              · intro h; cases h
            · constructor
              · intro _; rfl
              · intro _; exact ⟨_, hsc⟩
        | none =>
          have hh : ∀ s, e.height ≠ some (.rawVal s) := by
            intro s hcon; rw [heh] at hcon; cases hcon
          have hsc := scale_ok cell_width cell_height tc tr c r e a b w0 h0 hvb4 hw hh
          have hfbf : frameBad e = false := by
            rw [hfb, hew, heh]; rfl
          rw [hfbf]
          constructor
          · constructor
            · rintro ⟨msg, hmsg⟩; rw [hsc] at hmsg; cases hmsg
            · intro h; cases h
          · constructor
            · intro _; rfl
            · intro _; exact ⟨_, hsc⟩

/-- C7 amended: provided every present `viewBox` is well formed (a malformed
one raises an uncaught `ValueError`, not `TemplateError` — see the
counterexample), template resizing raises `TemplateError` exactly when the
sizing metadata is absent or unusable, a frame's `viewBox` is absent, a
present `width`/`height` is non-integral, or the inner screen frame is
missing; and on success the embedded sizing metadata has been removed. -/
theorem resize_template_error_iff (doc : TemplateDoc) (c r cw ch : Int)
    (hwf : docViewBoxesWellFormed doc = true) :
    ((∃ msg, resize_template doc c r cw ch = .error (.templateError msg)) ↔
      templateErrCond doc = true) ∧
    (∀ doc', resize_template doc c r cw ch = .ok doc' → doc'.settings = none) := by
  rw [docViewBoxesWellFormed, Bool.and_eq_true] at hwf
  obtain ⟨hwr, hws⟩ := hwf
  cases hs : doc.settings with
  | none =>
    have hre : resize_template doc c r cw ch =
        .error (.templateError "Missing template_settings element in definitions") := by
      simp [resize_template, hs, except_throw_eq]
    refine ⟨?_, ?_⟩
    · rw [show templateErrCond doc = true from by simp [templateErrCond, settingsBad, hs]]
      simp only [iff_true]
      exact ⟨_, hre⟩
    · intro doc' h; rw [hre] at h; cases h
  | some os =>
    cases os with
    | none =>
      have hre : resize_template doc c r cw ch =
          .error (.templateError "Missing screen_geometry element in template_settings") := by
        simp [resize_template, hs, except_throw_eq]
      refine ⟨?_, ?_⟩
      · rw [show templateErrCond doc = true from by simp [templateErrCond, settingsBad, hs]]
        simp only [iff_true]
        exact ⟨_, hre⟩
      · intro doc' h; rw [hre] at h; cases h
    | some pr =>
      obtain ⟨ca, ra⟩ := pr
      cases ca with
      | rawVal s =>
        have hre : resize_template doc c r cw ch =
            .error (.templateError "expected positive integers") := by
          simp [resize_template, hs, except_throw_eq]
        refine ⟨?_, ?_⟩
        · rw [show templateErrCond doc = true from by
            simp [templateErrCond, settingsBad, hs, geomBad]]
          simp only [iff_true]
          exact ⟨_, hre⟩
        · intro doc' h; rw [hre] at h; cases h
      | intVal tcv =>
        cases ra with
        | rawVal s =>
          have hre : resize_template doc c r cw ch =
              .error (.templateError "expected positive integers") := by
            simp [resize_template, hs, except_throw_eq]
          refine ⟨?_, ?_⟩
          · rw [show templateErrCond doc = true from by
              simp [templateErrCond, settingsBad, hs, geomBad]]
            simp only [iff_true]
            exact ⟨_, hre⟩
          · intro doc' h; rw [hre] at h; cases h
        | intVal trv =>
          by_cases hpos : trv ≤ 0 ∨ tcv ≤ 0
          · have hre : resize_template doc c r cw ch =
                .error (.templateError "expected positive integers") := by
              simp [resize_template, hs, if_pos hpos, except_throw_eq]
            refine ⟨?_, ?_⟩
            · rw [show templateErrCond doc = true from by
                simp [templateErrCond, settingsBad, hs, geomBad, hpos]]
              simp only [iff_true]
              exact ⟨_, hre⟩
            · intro doc' h; rw [hre] at h; cases h
          · have hcond : settingsBad doc.settings = false := by
              rw [hs]; simp [settingsBad, geomBad, hpos]
            have h1 := scale_err_iff cw ch tcv trv c r doc.root hwr
            cases hrb : frameBad doc.root with
            | true =>
              obtain ⟨msg, hmsg⟩ := h1.1.mpr hrb
              have hre : resize_template doc c r cw ch = .error (.templateError msg) := by
                simp [resize_template, hs, if_neg hpos, hmsg, except_bind_err]
              refine ⟨?_, ?_⟩
              · rw [show templateErrCond doc = true from by
                  simp [templateErrCond, hcond, hrb]]
                simp only [iff_true]
                exact ⟨_, hre⟩
              · intro doc' h; rw [hre] at h; cases h
            | false =>
              obtain ⟨root', hroot⟩ := h1.2.mpr hrb
              cases hscr : doc.screen with
              | none =>
                have hre : resize_template doc c r cw ch =
                    .error (.templateError "svg element with id screen not found") := by
                  simp [resize_template, hs, if_neg hpos, hroot, except_bind_ok, hscr,
                    except_throw_eq]
                refine ⟨?_, ?_⟩
                · rw [show templateErrCond doc = true from by
                    simp [templateErrCond, hcond, hrb, screenBad, hscr]]
                  simp only [iff_true]
                  exact ⟨_, hre⟩
                · intro doc' h; rw [hre] at h; cases h
              | some scr =>
                have hwscr : viewBoxWellFormed scr.viewBox = true := by
                  rw [hscr] at hws; exact hws
                have h2 := scale_err_iff cw ch tcv trv c r scr hwscr
                cases hsb : frameBad scr with
                | true =>
                  obtain ⟨msg, hmsg⟩ := h2.1.mpr hsb
                  have hre : resize_template doc c r cw ch =
                      .error (.templateError msg) := by
                    simp [resize_template, hs, if_neg hpos, hroot, hscr, hmsg,
                      except_bind_ok, except_bind_err]
                  refine ⟨?_, ?_⟩
                  · rw [show templateErrCond doc = true from by
                      simp [templateErrCond, hcond, hrb, screenBad, hscr, hsb]]
                    simp only [iff_true]
                    exact ⟨_, hre⟩
                  · intro doc' h; rw [hre] at h; cases h
                | false =>
                  obtain ⟨scr', hscr'⟩ := h2.2.mpr hsb
                  have hre : resize_template doc c r cw ch =
                      .ok { root := root', settings := none, screen := some scr',
                            generatedStyle := doc.generatedStyle } := by
                    simp [resize_template, hs, if_neg hpos, hroot, hscr, hscr',
                      except_bind_ok, except_pure_eq]
                  refine ⟨?_, ?_⟩
                  · rw [show templateErrCond doc = false from by
                      simp [templateErrCond, hcond, hrb, screenBad, hscr, hsb]]
                    constructor
                    · rintro ⟨msg, hmsg⟩; rw [hre] at hmsg; cases hmsg
                    · intro h; cases h
                  · intro doc' h
                    rw [hre] at h
                    injection h with h2
                    rw [← h2]

/-- A template whose root `viewBox` has a non-integral first token. -/
def badViewBoxDoc : TemplateDoc :=
  { root := { viewBox := some [.rawVal "10px", .intVal 0, .intVal 656, .intVal 504]
              width := none
              height := none }
    settings := some (some (.intVal 80, .intVal 24))
    screen := some { viewBox := some [.intVal 0, .intVal 0, .intVal 640, .intVal 408]
                     width := none
                     height := none }
    generatedStyle := true }

/-- C7 counterexample: a `viewBox` that is present but not expressible as
integers raises an uncaught `ValueError` (the list comprehension
`[int(n) for n in viewbox]` is outside the `try: ... except KeyError`), not
the `TemplateError` the claim requires. -/
theorem nonintegral_viewbox_raises_valueerror :
    resize_template badViewBoxDoc 100 30 8 17 =
      .error (.valueError "invalid literal for int with base 10") ∧
    ∀ msg, resize_template badViewBoxDoc 100 30 8 17 ≠ .error (.templateError msg) := by
  refine ⟨rfl, ?_⟩
  intro msg h
  rw [show resize_template badViewBoxDoc 100 30 8 17 =
      .error (.valueError "invalid literal for int with base 10") from rfl] at h
  simp at h

/-- A well-formed template whose inner screen frame is missing. -/
def screenlessTemplate : TemplateDoc :=
  { carbonTemplate with screen := none }

/-- C7 amended, witness: on a template missing its screen frame the
characterization applies and reports a `TemplateError`. -/
theorem resize_template_error_iff_witness :
    docViewBoxesWellFormed screenlessTemplate = true ∧
    (((∃ msg, resize_template screenlessTemplate 100 30 8 17 =
        .error (.templateError msg)) ↔ templateErrCond screenlessTemplate = true) ∧
      (∀ doc', resize_template screenlessTemplate 100 30 8 17 = .ok doc' →
        doc'.settings = none)) :=
  ⟨by decide, resize_template_error_iff screenlessTemplate 100 30 8 17 (by decide)⟩

/- ### C4: background rectangles -/

theorem groupConsec_item_mem {α β : Type} (key : α → β) [DecidableEq β]
    (l : List (Nat × α)) : ∀ g ∈ groupConsec key l, ∀ p ∈ g.2.2, p ∈ l := by
  intro g hg p hp
  rw [← groupConsec_join key l]
  exact List.mem_flatten.mpr ⟨g.2.2, List.mem_map.mpr ⟨g, hg, rfl⟩, hp⟩

theorem assoc_nodup_eq {α : Type} (l : List (Nat × α)) (hnd : (l.map Prod.fst).Nodup)
    (c : Nat) (a b : α) (ha : (c, a) ∈ l) (hb : (c, b) ∈ l) : a = b := by
  induction l with
  | nil => cases ha
  | cons p rest ih =>
    simp only [List.map_cons, List.nodup_cons] at hnd
    simp only [List.mem_cons] at ha hb
    rcases ha with ha | ha <;> rcases hb with hb | hb
    · rw [← ha] at hb; injection hb with h1 h2; exact h2.symm
    · exfalso
      apply hnd.1
      rw [← ha]
      exact List.mem_map.mpr ⟨(c, b), hb, rfl⟩
    · exfalso
      apply hnd.1
      rw [← hb]
      exact List.mem_map.mpr ⟨(c, a), ha, rfl⟩
    · exact ih hnd.2 ha hb

theorem mem_sortLine (line : List (Nat × CharacterCell)) (p : Nat × CharacterCell) :
    p ∈ sortLine line ↔ p ∈ line :=
  (List.perm_insertionSort (fun p q => p.1 ≤ q.1) line).mem_iff

/-- C4: a background rect is emitted only over contiguous columns whose cells
have the rect's (non-default) background color, and no rect covers a cell
whose background equals the frame's default background.  A column `c` is
covered by rect `rt` when `rt.x ≤ c * cell_width < rt.x + rt.width`. -/
theorem bg_rects_cover_only_non_default (screen_line : List (Nat × CharacterCell))
    (height cell_height cell_width : Nat) (default_bg_color : String)
    (hnd : (screen_line.map Prod.fst).Nodup) (hcw : 0 < cell_width) :
    (∀ rt ∈ render_line_bg_colors screen_line height cell_height cell_width default_bg_color,
       ∀ c : Nat, rt.x ≤ c * cell_width → c * cell_width < rt.x + rt.width →
         ∃ cell, (c, cell) ∈ screen_line ∧ cell.background_color = rt.fill ∧
           rt.fill ≠ default_bg_color) ∧
    (∀ c cell, (c, cell) ∈ screen_line → cell.background_color = default_bg_color →
       ∀ rt ∈ render_line_bg_colors screen_line height cell_height cell_width default_bg_color,
         ¬(rt.x ≤ c * cell_width ∧ c * cell_width < rt.x + rt.width)) := by
  have part1 : ∀ rt ∈ render_line_bg_colors screen_line height cell_height cell_width
      default_bg_color,
      ∀ c : Nat, rt.x ≤ c * cell_width → c * cell_width < rt.x + rt.width →
        ∃ cell, (c, cell) ∈ screen_line ∧ cell.background_color = rt.fill ∧
          rt.fill ≠ default_bg_color := by
    intro rt hrt c hc1 hc2
    simp only [render_line_bg_colors, List.mem_map] at hrt
    obtain ⟨g, hg, rfl⟩ := hrt
    simp only [make_rect_tag] at hc1 hc2 ⊢
    have hle : g.1 ≤ c := by
      by_contra hlt
      push_neg at hlt
      have := (Nat.mul_lt_mul_right hcw).mpr hlt
      omega
    have hlt2 : c < g.1 + g.2.2.length := by
      by_contra hge
      push_neg at hge
      have h2 : (g.1 + g.2.2.length) * cell_width ≤ c * cell_width :=
        Nat.mul_le_mul_right _ hge
      rw [Nat.add_mul] at h2
      omega
    have hruns := groupConsec_runs (fun cc : CharacterCell => cc.background_color) _ g hg
    obtain ⟨x, hx, hkey⟩ := runFrom_cover _ _ _ _ hruns.2 c hle hlt2
    have hmem := groupConsec_item_mem _ _ g hg (c, x) hx
    have hfilter := List.mem_filter.mp hmem
    have hlinemem : (c, x) ∈ screen_line := (mem_sortLine screen_line (c, x)).mp hfilter.1
    have hne : x.background_color ≠ default_bg_color := by
      have := hfilter.2
      simpa [bne_iff_ne] using this
    exact ⟨x, hlinemem, hkey, hkey ▸ hne⟩
  refine ⟨part1, ?_⟩
  intro c cell hmem hbg rt hrt ⟨hc1, hc2⟩
  obtain ⟨cell', hmem', hfill, hne⟩ := part1 rt hrt c hc1 hc2
  have : cell' = cell := assoc_nodup_eq screen_line hnd c cell' cell hmem' hmem
  rw [this] at hfill
  exact hne (hfill ▸ hbg)

/-- A concrete three-cell line: red, default, blue backgrounds. -/
def sampleLine : List (Nat × CharacterCell) :=
  [(0, ⟨"a", "f", "red", false⟩), (1, ⟨"b", "f", "bg", false⟩), (2, ⟨"c", "f", "blue", false⟩)]

/-- C4 witness: the coverage property at a concrete line with default
background `"bg"`. -/
theorem bg_rects_cover_only_non_default_witness :
    ((sampleLine.map Prod.fst).Nodup ∧ 0 < 8) ∧
    ((∀ rt ∈ render_line_bg_colors sampleLine 0 17 8 "bg",
       ∀ c : Nat, rt.x ≤ c * 8 → c * 8 < rt.x + rt.width →
         ∃ cell, (c, cell) ∈ sampleLine ∧ cell.background_color = rt.fill ∧
           rt.fill ≠ "bg") ∧
     (∀ c cell, (c, cell) ∈ sampleLine → cell.background_color = "bg" →
       ∀ rt ∈ render_line_bg_colors sampleLine 0 17 8 "bg",
         ¬(rt.x ≤ c * 8 ∧ c * 8 < rt.x + rt.width))) :=
  ⟨⟨by decide, by decide⟩,
    bg_rects_cover_only_non_default sampleLine 0 17 8 "bg" (by decide) (by decide)⟩

/- ### C5: text runs -/

theorem runFrom_pairwise {α β : Type} (key : α → β) [DecidableEq β] (s : Nat) (k : β)
    (l : List (Nat × α)) (h : runFrom key s k l = true) :
    List.Pairwise (fun p q : Nat × α => p.1 ≤ q.1) l := by
  induction l generalizing s with
  | nil => exact List.Pairwise.nil
  | cons p rest ih =>
    obtain ⟨j, a⟩ := p
    rw [runFrom_cons] at h
    refine List.Pairwise.cons ?_ (ih (s + 1) h.2.2)
    intro q hq
    have := runFrom_mem key (s + 1) k rest h.2.2 q hq
    omega

theorem string_join_length (ss : List String) :
    (String.join ss).length = (ss.map String.length).sum := by
  have haux : ∀ (l : List String) (acc : String),
      (List.foldl (fun r s => r ++ s) acc l).length = acc.length + (l.map String.length).sum := by
    intro l
    induction l with
    | nil => intro acc; simp
    | cons s t ih =>
      intro acc
      simp only [List.foldl_cons, ih, String.length_append, List.map_cons, List.sum_cons]
      omega
  have := haux ss ""
  simpa [String.join] using this

theorem cells_text_sum (m : List (Nat × CharacterCell))
    (hm : ∀ p ∈ m, p.2.text.length = 1) :
    ((m.map (fun p => p.2.text)).map String.length).sum = m.length := by
  induction m with
  | nil => rfl
  | cons p t ih =>
    simp only [List.map_cons, List.sum_cons, List.length_cons]
    rw [hm p (by simp), ih (fun q hq => hm q (by simp [hq]))]
    omega

theorem sortLine_runFrom {β : Type} [DecidableEq β] (key : CharacterCell → β) (s : Nat)
    (k : β) (l : List (Nat × CharacterCell)) (h : runFrom key s k l = true) :
    sortLine l = l :=
  List.Sorted.insertionSort_eq (runFrom_pairwise key s k l h)

/-- C5: a run of N consecutive columns with identical `(color, bold)` yields
exactly one text fragment with forced width `N * cell_width` positioned at
the run's start; a gap or a key change splits the line into exactly one
fragment per run, each with its own forced width. -/
theorem text_run_fragments (cell_width : Nat) :
    (∀ (i : Nat) (a : CharacterCell) (rest : List (Nat × CharacterCell)),
      runFrom (fun cc : CharacterCell => (cc.color, cc.bold)) i (a.color, a.bold)
        ((i, a) :: rest) = true →
      (∀ p ∈ (i, a) :: rest, p.2.text.length = 1) →
      ∃ t, render_characters ((i, a) :: rest) cell_width = [t] ∧
        t.x = i * cell_width ∧
        t.textLength = ((i, a) :: rest).length * cell_width) ∧
    (∀ (i : Nat) (a : CharacterCell) (rest₁ : List (Nat × CharacterCell))
        (j : Nat) (b : CharacterCell) (rest₂ : List (Nat × CharacterCell)),
      runFrom (fun cc : CharacterCell => (cc.color, cc.bold)) i (a.color, a.bold)
        ((i, a) :: rest₁) = true →
      runFrom (fun cc : CharacterCell => (cc.color, cc.bold)) j (b.color, b.bold)
        ((j, b) :: rest₂) = true →
      i + rest₁.length < j →
      (j ≠ i + rest₁.length + 1 ∨ (b.color, b.bold) ≠ (a.color, a.bold)) →
      (∀ p ∈ ((i, a) :: rest₁) ++ ((j, b) :: rest₂), p.2.text.length = 1) →
      ∃ t₁ t₂, render_characters (((i, a) :: rest₁) ++ ((j, b) :: rest₂)) cell_width =
          [t₁, t₂] ∧
        t₁.x = i * cell_width ∧ t₁.textLength = (rest₁.length + 1) * cell_width ∧
        t₂.x = j * cell_width ∧ t₂.textLength = (rest₂.length + 1) * cell_width) := by
  constructor
  · intro i a rest hrun htext
    have hsort := sortLine_runFrom _ i (a.color, a.bold) _ hrun
    have hgroups := groupConsec_single (fun cc : CharacterCell => (cc.color, cc.bold))
      i a rest hrun
    refine ⟨make_text_tag i a.color a.bold
      (String.join (((i, a) :: rest).map (fun p => p.2.text))) cell_width, ?_, rfl, ?_⟩
    · simp only [render_characters, hsort, hgroups, List.map_cons, List.map_nil]
    · simp only [make_text_tag, string_join_length, cells_text_sum _ htext]
  · intro i a rest₁ j b rest₂ hrun₁ hrun₂ hgap hbreak htext
    have hpw₁ := runFrom_pairwise _ i (a.color, a.bold) _ hrun₁
    have hpw₂ := runFrom_pairwise _ j (b.color, b.bold) _ hrun₂
    have hsort : sortLine (((i, a) :: rest₁) ++ ((j, b) :: rest₂)) =
        ((i, a) :: rest₁) ++ ((j, b) :: rest₂) := by
      apply List.Sorted.insertionSort_eq
      show List.Pairwise (fun p q : Nat × CharacterCell => p.1 ≤ q.1)
        (((i, a) :: rest₁) ++ ((j, b) :: rest₂))
      rw [List.pairwise_append]
      refine ⟨hpw₁, hpw₂, ?_⟩
      intro p hp q hq
      have h1 := runFrom_mem _ i (a.color, a.bold) _ hrun₁ p hp
      have h2 := runFrom_mem _ j (b.color, b.bold) _ hrun₂ q hq
      simp only [List.length_cons] at h1 h2
      omega
    have hgroups := groupConsec_pair (fun cc : CharacterCell => (cc.color, cc.bold))
      i a rest₁ j b rest₂ hrun₁ hrun₂ hbreak
    have htext₁ : ∀ p ∈ (i, a) :: rest₁, p.2.text.length = 1 := by
      intro p hp; exact htext p (List.mem_append.mpr (Or.inl hp))
    have htext₂ : ∀ p ∈ (j, b) :: rest₂, p.2.text.length = 1 := by
      intro p hp; exact htext p (List.mem_append.mpr (Or.inr hp))
    refine ⟨make_text_tag i a.color a.bold
        (String.join (((i, a) :: rest₁).map (fun p => p.2.text))) cell_width,
      make_text_tag j b.color b.bold
        (String.join (((j, b) :: rest₂).map (fun p => p.2.text))) cell_width,
      ?_, rfl, ?_, rfl, ?_⟩
    · simp only [render_characters, hsort, hgroups, List.map_cons, List.map_nil]
    · have := cells_text_sum _ htext₁
      simp only [make_text_tag, string_join_length, this, List.length_cons]
    · have := cells_text_sum _ htext₂
      simp only [make_text_tag, string_join_length, this, List.length_cons]

/-- C5 witness: a two-cell run at columns 3-4 yields one fragment of forced
width `2 * 8`; a one-cell run at column 0 followed by a gap and a one-cell
run at column 2 yields exactly two fragments. -/
theorem text_run_fragments_witness :
    (∃ t, render_characters
        [(3, (⟨"a", "white", "bg", false⟩ : CharacterCell)),
         (4, ⟨"b", "white", "bg", false⟩)] 8 = [t] ∧
      t.x = 3 * 8 ∧
      t.textLength = ([(3, (⟨"a", "white", "bg", false⟩ : CharacterCell)),
        (4, ⟨"b", "white", "bg", false⟩)]).length * 8) ∧
    (∃ t₁ t₂, render_characters
        ([(0, (⟨"a", "white", "bg", false⟩ : CharacterCell))] ++
         [(2, (⟨"c", "red", "bg", false⟩ : CharacterCell))]) 8 = [t₁, t₂] ∧
      t₁.x = 0 * 8 ∧
      t₁.textLength = (List.length ([] : List (Nat × CharacterCell)) + 1) * 8 ∧
      t₂.x = 2 * 8 ∧
      t₂.textLength = (List.length ([] : List (Nat × CharacterCell)) + 1) * 8) :=
  ⟨(text_run_fragments 8).1 3 ⟨"a", "white", "bg", false⟩
      [(4, ⟨"b", "white", "bg", false⟩)] (by decide) (by decide),
    (text_run_fragments 8).2 0 ⟨"a", "white", "bg", false⟩ [] 2 ⟨"c", "red", "bg", false⟩ []
      (by decide) (by decide) (by decide) (by decide) (by decide)⟩

/- ### C8: one toggle directive per group, one loop anchor overall -/

/-- Is this child a toggle (`animate`) directive? -/
def isAnimate : GroupChild → Bool
  | .animateChild _ _ _ => true
  | _ => false

/-- Does this child carry the loop-anchor id `anim_last`? -/
def isLoopAnchor : GroupChild → Bool
  | .animateChild _ _ (some i) => decide (i = LAST_ANIMATION_ID)
  | _ => false

/-- Number of toggle directives among a group's children. -/
def countAnimate (children : List GroupChild) : Nat :=
  (children.filter isAnimate).length

/-- Number of loop-anchor carriers among a group's children. -/
def countAnchor (children : List GroupChild) : Nat :=
  (children.filter isLoopAnchor).length

theorem make_animated_group_children_no_animate
    (cell_height cell_width : Nat) (default_bg_color : String)
    (defs : List (String × String)) (records : List CharacterCellLineEvent)
    (nd : List (String × String)) :
    ∀ c ∈ (make_animated_group_children cell_height cell_width default_bg_color defs
      records nd).1, isAnimate c = false := by
  induction records generalizing nd with
  | nil => intro c hc; simp [make_animated_group_children] at hc
  | cons rec rest ih =>
    intro c hc
    simp only [make_animated_group_children, List.mem_append] at hc
    rcases hc with (hc | hc) | hc
    · obtain ⟨rt, _, rfl⟩ := List.mem_map.mp hc
      rfl
    · simp only [List.mem_singleton] at hc
      subst hc; rfl
    · exact ih _ c hc

theorem filter_eq_nil_of_false {α : Type} (p : α → Bool) (l : List α)
    (h : ∀ a ∈ l, p a = false) : l.filter p = [] := by
  induction l with
  | nil => rfl
  | cons a t ih =>
    simp only [List.filter_cons, h a (by simp), Bool.false_eq_true, if_false]
    exact ih (fun b hb => h b (by simp [hb]))

theorem make_animated_group_counts (records : List CharacterCellLineEvent)
    (time duration cell_height cell_width : Nat) (default_bg_color : String)
    (defs : List (String × String)) :
    countAnimate (make_animated_group records time duration cell_height cell_width
        default_bg_color defs).1 = 1 ∧
    countAnchor (make_animated_group records time duration cell_height cell_width
        default_bg_color defs).1 = 0 := by
  simp only [make_animated_group, countAnimate, countAnchor, List.filter_append]
  have h1 := make_animated_group_children_no_animate cell_height cell_width default_bg_color
    defs records []
  rw [filter_eq_nil_of_false isAnimate _ h1]
  rw [filter_eq_nil_of_false isLoopAnchor _
    (fun c hc => by cases hcc : isAnimate c
                    · cases c <;> simp_all [isAnimate, isLoopAnchor]
                    · exact absurd hcc (by simp [h1 c hc]))]
  constructor <;> rfl

theorem render_groups_loop_counts (cell_height cell_width : Nat) (default_bg_color : String)
    (buckets : List ((Nat × Nat) × List CharacterCellLineEvent))
    (defs : List (String × String)) :
    ∀ g ∈ (render_groups_loop cell_height cell_width default_bg_color defs buckets).1,
      countAnimate g = 1 ∧ countAnchor g = 0 := by
  induction buckets generalizing defs with
  | nil => intro g hg; simp [render_groups_loop] at hg
  | cons b rest ih =>
    obtain ⟨⟨t, d⟩, recs⟩ := b
    intro g hg
    simp only [render_groups_loop, List.mem_cons] at hg
    rcases hg with hg | hg
    · subst hg
      exact make_animated_group_counts recs t d cell_height cell_width default_bg_color defs
    · exact ih _ g hg

theorem set_last_animation_id_counts (children : List GroupChild) :
    countAnimate (set_last_animation_id children) = countAnimate children ∧
    countAnchor (set_last_animation_id children) = countAnimate children := by
  induction children with
  | nil => exact ⟨rfl, rfl⟩
  | cons c t ih =>
    cases c <;>
      simp only [set_last_animation_id, countAnimate, countAnchor, List.map_cons,
        List.filter_cons, isAnimate, isLoopAnchor, LAST_ANIMATION_ID] at ih ⊢ <;>
      simp_all [set_last_animation_id, countAnimate, countAnchor]

theorem render_animation_groups_eq (header : CharacterCellConfig)
    (records : List CharacterCellLineEvent) (cell_width cell_height : Nat)
    (r : RenderResult)
    (hok : render_animation header records cell_width cell_height = .ok r) :
    r.groups = tag_loop_anchor (render_groups_loop cell_height cell_width
      header.background_color []
      (pyGroupBy (fun e : CharacterCellLineEvent => (e.time, e.duration)) records)).1 := by
  simp only [render_animation] at hok
  cases hres : resize_template carbonTemplate header.width header.height cell_width
      cell_height with
  | error e => rw [hres, except_bind_err] at hok; cases hok
  | ok root =>
    rw [hres, except_bind_ok] at hok
    cases hcss : add_css_variables root header.text_color header.background_color
        (render_groups_loop cell_height cell_width header.background_color []
          (pyGroupBy (fun e : CharacterCellLineEvent => (e.time, e.duration)) records)).2.2 with
    | error e => rw [hcss, except_bind_err] at hok; cases hok
    | ok vars =>
      rw [hcss, except_bind_ok, except_pure_eq] at hok
      injection hok with h
      rw [← h]

theorem mem_of_getLast?_eq {α : Type} (l : List α) (a : α) (h : l.getLast? = some a) :
    a ∈ l := by
  induction l with
  | nil => cases h
  | cons x t ih =>
    cases t with
    | nil => simp at h; simp [h]
    | cons y t2 =>
      rw [List.getLast?_cons_cons] at h
      simp [ih h]

theorem pyGroupBy_ne_nil {α β : Type} (key : α → β) [DecidableEq β] (l : List α)
    (h : l ≠ []) : pyGroupBy key l ≠ [] := by
  cases l with
  | nil => exact absurd rfl h
  | cons a rest => rw [pyGroupBy]; simp

theorem render_groups_loop_ne_nil (cell_height cell_width : Nat) (default_bg_color : String)
    (buckets : List ((Nat × Nat) × List CharacterCellLineEvent))
    (defs : List (String × String)) (h : buckets ≠ []) :
    (render_groups_loop cell_height cell_width default_bg_color defs buckets).1 ≠ [] := by
  cases buckets with
  | nil => exact absurd rfl h
  | cons b rest =>
    obtain ⟨⟨t, d⟩, recs⟩ := b
    rw [render_groups_loop]
    simp

/-- C8: in a successfully rendered, nonempty stream every visibility group
contains exactly one toggle directive, and exactly one directive in the whole
document — the one of the last group — carries the loop-anchor id. -/
theorem visibility_groups_single_toggle_unique_anchor (header : CharacterCellConfig)
    (records : List CharacterCellLineEvent) (cell_width cell_height : Nat)
    (hne : records ≠ []) (r : RenderResult)
    (hok : render_animation header records cell_width cell_height = .ok r) :
    (∀ g ∈ r.groups, countAnimate g = 1) ∧
    (r.groups.map countAnchor).sum = 1 ∧
    (∃ glast, r.groups.getLast? = some glast ∧ countAnchor glast = 1) := by
  have hgeq := render_animation_groups_eq header records cell_width cell_height r hok
  have hbne : pyGroupBy (fun e : CharacterCellLineEvent => (e.time, e.duration)) records
      ≠ [] := pyGroupBy_ne_nil _ records hne
  have hcounts := render_groups_loop_counts cell_height cell_width header.background_color
    (pyGroupBy (fun e : CharacterCellLineEvent => (e.time, e.duration)) records) []
  have hGne := render_groups_loop_ne_nil cell_height cell_width header.background_color
    (pyGroupBy (fun e : CharacterCellLineEvent => (e.time, e.duration)) records) [] hbne
  cases hlast : (render_groups_loop cell_height cell_width header.background_color []
      (pyGroupBy (fun e : CharacterCellLineEvent => (e.time, e.duration)) records)).1.getLast?
    with
  | none =>
    exfalso
    apply hGne
    cases hG : (render_groups_loop cell_height cell_width header.background_color []
        (pyGroupBy (fun e : CharacterCellLineEvent => (e.time, e.duration)) records)).1 with
    | nil => rfl
    | cons g0 t => rw [hG] at hlast; simp at hlast
  | some glast =>
    have hmemlast := mem_of_getLast?_eq _ glast hlast
    have hfinal : r.groups = (render_groups_loop cell_height cell_width
        header.background_color []
        (pyGroupBy (fun e : CharacterCellLineEvent => (e.time, e.duration)) records)).1.dropLast
        ++ [set_last_animation_id glast] := by
      rw [hgeq, tag_loop_anchor, hlast]
    have hsl := set_last_animation_id_counts glast
    have hanim_last : countAnimate glast = 1 := (hcounts glast hmemlast).1
    refine ⟨?_, ?_, ?_⟩
    · intro g hg
      rw [hfinal] at hg
      rcases List.mem_append.mp hg with hg | hg
      · exact (hcounts g (List.dropLast_subset _ hg)).1
      · simp only [List.mem_singleton] at hg
        subst hg
        rw [hsl.1, hanim_last]
    · rw [hfinal, List.map_append, List.sum_append]
      have hzero : ((render_groups_loop cell_height cell_width header.background_color []
          (pyGroupBy (fun e : CharacterCellLineEvent => (e.time, e.duration))
            records)).1.dropLast.map countAnchor).sum = 0 := by
        apply List.sum_eq_zero
        intro x hx
        obtain ⟨g, hg, rfl⟩ := List.mem_map.mp hx
        exact (hcounts g (List.dropLast_subset _ hg)).2
      rw [hzero]
      simp only [List.map_cons, List.map_nil, List.sum_cons, List.sum_nil]
      rw [hsl.2, hanim_last]
      omega
    · refine ⟨set_last_animation_id glast, ?_, ?_⟩
      · rw [hfinal, List.getLast?_concat]
      · rw [hsl.2, hanim_last]

theorem render_animation_ok (header : CharacterCellConfig)
    (records : List CharacterCellLineEvent) (cell_width cell_height : Nat) :
    ∃ res, render_animation header records cell_width cell_height = .ok res := by
  have hres := resize_template_scales carbonTemplate 80 24 rfl (by decide) (by decide)
    0 0 656 504 rfl (by intro s h; simp [carbonTemplate] at h)
    (by intro s h; simp [carbonTemplate] at h)
    { viewBox := some [.intVal 0, .intVal 0, .intVal 640, .intVal 408]
      width := some (.intVal 640)
      height := some (.intVal 408) } rfl
    0 0 640 408 rfl (by intro s h; simp [carbonTemplate] at h)
    (by intro s h; simp [carbonTemplate] at h)
    header.width header.height cell_width cell_height
  cases hfin : render_animation header records cell_width cell_height with
  | ok res => exact ⟨res, rfl⟩
  | error e =>
    exfalso
    simp only [render_animation, hres, except_bind_ok] at hfin
    simp [add_css_variables, carbonTemplate, except_bind_ok, except_pure_eq] at hfin

/-- A concrete header record. -/
def sampleHeader : CharacterCellConfig := ⟨80, 24, "fg", "bg"⟩

/-- A concrete one-event stream. -/
def sampleRecords : List CharacterCellLineEvent := [⟨0, [], 0, 100⟩]

/-- C8 witness: one bucket of one (empty) line event renders with exactly one
toggle directive in its single group, which carries the loop anchor. -/
theorem visibility_groups_single_toggle_unique_anchor_witness :
    sampleRecords ≠ [] ∧
    ∃ r, render_animation sampleHeader sampleRecords 8 17 = .ok r ∧
      ((∀ g ∈ r.groups, countAnimate g = 1) ∧
        (r.groups.map countAnchor).sum = 1 ∧
        (∃ glast, r.groups.getLast? = some glast ∧ countAnchor glast = 1)) := by
  refine ⟨by decide, ?_⟩
  obtain ⟨r, hr⟩ := render_animation_ok sampleHeader sampleRecords 8 17
  exact ⟨r, hr, visibility_groups_single_toggle_unique_anchor sampleHeader sampleRecords
    8 17 (by decide) r hr⟩

/- ### C2: the definition store -/

/-- The interning thread of state of one timing bucket (`make_animated_group`,
anim.py lines 283-293, restricted to the definition store): process the
bucket's serialized fragments in order, returning the `(fragment, id)`
assignment of every occurrence together with the bucket's new definitions. -/
def intern_bucket (defs : List (String × String)) :
    List String → List (String × String) →
      List (String × String) × List (String × String)
  | [], nd => ([], nd)
  | f :: fs, nd =>
    let t := find_or_create_definition defs nd f
    let r := intern_bucket defs fs t.2
    ((f, t.1) :: r.1, r.2)

/-- The `defs.update(new_defs)` loop of `_render_animation` (anim.py lines
429-442) restricted to the definition store: process the buckets in order,
merging each bucket's new definitions before the next (an append, since the
new keys are fresh). -/
def intern_stream (defs : List (String × String)) :
    List (List String) → List (String × String) × List (String × String)
  | [] => ([], defs)
  | b :: bs =>
    let t := intern_bucket defs b []
    let r := intern_stream (defs ++ t.2) bs
    (t.1 ++ r.1, r.2)

/-- The `use` reference of a group child, when it is one. -/
def useHref : GroupChild → Option String
  | .useChild h _ => some h
  | _ => none

/-- Bridge: the definition-store state threaded by `make_animated_group`
equals the `intern_bucket` projection on the records' serialized fragments,
and the emitted `use` references are exactly the assigned ids. -/
theorem make_animated_group_children_intern (cell_height cell_width : Nat)
    (default_bg_color : String) (defs : List (String × String))
    (records : List CharacterCellLineEvent) (nd : List (String × String)) :
    (make_animated_group_children cell_height cell_width default_bg_color defs
        records nd).2 =
      (intern_bucket defs (records.map
        (fun r => serializeTextGroup (render_characters r.line cell_width))) nd).2 ∧
    (make_animated_group_children cell_height cell_width default_bg_color defs
        records nd).1.filterMap useHref =
      (intern_bucket defs (records.map
        (fun r => serializeTextGroup (render_characters r.line cell_width))) nd).1.map
        (fun p => "#" ++ p.2) := by
  induction records generalizing nd with
  | nil => exact ⟨rfl, rfl⟩
  | cons r rs ih =>
    simp only [make_animated_group_children, List.map_cons, intern_bucket]
    constructor
    · exact (ih _).1
    · rw [List.filterMap_append, List.filterMap_append]
      have hrects : ∀ rs : List RectTag,
          (rs.map GroupChild.rectChild).filterMap useHref = [] := by
        intro rs; induction rs with
        | nil => rfl
        | cons rt rts ihr => simp [useHref, ihr]
      rw [hrects]
      simp only [List.nil_append, List.filterMap_cons, useHref, List.map_cons]
      rw [(ih _).2]
      rfl

/-- The ids `g1, ..., gn` minted by the monotonic counter. -/
def idRange (n : Nat) : List String :=
  (List.range n).map (fun m => "g" ++ pyStr (m + 1))

theorem gid_inj (m n : Nat) (h : ("g" ++ pyStr m) = ("g" ++ pyStr n)) : m = n := by
  have hdata := congrArg String.data h
  simp only [string_append_data] at hdata
  have htail : (pyStr m).data = (pyStr n).data := by
    have : ('g' :: (pyStr m).data) = ('g' :: (pyStr n).data) := hdata
    injection this
  exact pyStr_inj (by apply String.ext; exact htail)

theorem idRange_nodup (n : Nat) : (idRange n).Nodup := by
  apply List.Nodup.map
  · intro a b hab
    have := gid_inj (a + 1) (b + 1) hab
    omega
  · exact List.nodup_range n

theorem idRange_succ (n : Nat) :
    idRange (n + 1) = idRange n ++ ["g" ++ pyStr (n + 1)] := by
  simp [idRange, List.range_succ]

theorem lookup_some_mem_snd (l : List (String × String)) (k v : String)
    (h : l.lookup k = some v) : v ∈ l.map Prod.snd := by
  induction l with
  | nil => cases h
  | cons p t ih =>
    obtain ⟨a, b⟩ := p
    rw [List.lookup_cons] at h
    by_cases hk : k = a
    · simp only [hk, beq_self_eq_true] at h
      injection h with h
      simp [h]
    · simp only [beq_eq_false_iff_ne.mpr hk] at h
      simp [ih h]

theorem lookup_none_not_mem (l : List (String × String)) (k : String)
    (h : l.lookup k = none) : k ∉ l.map Prod.fst := by
  induction l with
  | nil => simp
  | cons p t ih =>
    obtain ⟨a, b⟩ := p
    rw [List.lookup_cons] at h
    by_cases hk : k = a
    · simp only [hk, beq_self_eq_true] at h
      cases h
    · simp only [beq_eq_false_iff_ne.mpr hk] at h
      simp [hk, ih h]

theorem lookup_preserved (S ext : List (String × String)) (k v : String)
    (h : S.lookup k = some v) : (S ++ ext).lookup k = some v := by
  rw [List.lookup_append, h]
  rfl

/-- Invariant of the combined definition store: keys are pairwise distinct,
and the assigned ids are exactly `g1, ..., gN` in order of creation (the
monotonic counter). -/
def StoreInv (S : List (String × String)) : Prop :=
  (S.map Prod.fst).Nodup ∧ S.map Prod.snd = idRange S.length

theorem StoreInv.snd_nodup {S : List (String × String)} (h : StoreInv S) :
    (S.map Prod.snd).Nodup := by
  rw [h.2]; exact idRange_nodup S.length

theorem lookup_inj (S : List (String × String)) (hkeys : (S.map Prod.fst).Nodup)
    (hids : (S.map Prod.snd).Nodup) (f g id : String)
    (hf : S.lookup f = some id) (hg : S.lookup g = some id) : f = g := by
  induction S with
  | nil => cases hf
  | cons p t ih =>
    obtain ⟨a, b⟩ := p
    simp only [List.map_cons, List.nodup_cons] at hkeys hids
    rw [List.lookup_cons] at hf hg
    by_cases hfa : f = a <;> by_cases hga : g = a
    · rw [hfa, hga]
    · exfalso
      simp only [hfa, beq_self_eq_true] at hf
      injection hf with hf
      simp only [beq_eq_false_iff_ne.mpr hga] at hg
      exact hids.1 (hf ▸ lookup_some_mem_snd t g id hg)
    · exfalso
      simp only [hga, beq_self_eq_true] at hg
      injection hg with hg
      simp only [beq_eq_false_iff_ne.mpr hfa] at hf
      exact hids.1 (hg ▸ lookup_some_mem_snd t f id hf)
    · simp only [beq_eq_false_iff_ne.mpr hfa] at hf
      simp only [beq_eq_false_iff_ne.mpr hga] at hg
      exact ih hkeys.2 hids.2 hf hg

theorem find_or_create_step (defs nd : List (String × String)) (f : String)
    (hinv : StoreInv (defs ++ nd)) :
    StoreInv (defs ++ (find_or_create_definition defs nd f).2) ∧
    (defs ++ (find_or_create_definition defs nd f).2).lookup f =
      some (find_or_create_definition defs nd f).1 ∧
    (∃ ext, defs ++ (find_or_create_definition defs nd f).2 = (defs ++ nd) ++ ext) := by
  simp only [find_or_create_definition]
  cases hd : defs.lookup f with
  | some id =>
    refine ⟨hinv, ?_, [], by simp⟩
    rw [List.lookup_append, hd]
    rfl
  | none =>
    cases hn : nd.lookup f with
    | some id =>
      refine ⟨hinv, ?_, [], by simp⟩
      rw [List.lookup_append, hd, hn]
      rfl
    | none =>
      have hfresh : (defs ++ nd).lookup f = none := by
        rw [List.lookup_append, hd, hn]
        rfl
      have hkey_not : f ∉ (defs ++ nd).map Prod.fst :=
        lookup_none_not_mem _ f hfresh
      have hassoc : defs ++ (nd ++ [(f, "g" ++ pyStr (defs.length + nd.length + 1))]) =
          (defs ++ nd) ++ [(f, "g" ++ pyStr (defs.length + nd.length + 1))] := by
        rw [List.append_assoc]
      have hlen : defs.length + nd.length = (defs ++ nd).length := by
        simp
      refine ⟨?_, ?_, ?_⟩
      · constructor
        · rw [hassoc, List.map_append]
          rw [List.nodup_append]
          exact ⟨hinv.1, List.nodup_singleton f, by
            intro x hx hx2
            simp only [List.map_cons, List.map_nil, List.mem_singleton] at hx2
            exact hkey_not (hx2 ▸ hx)⟩
        · rw [hassoc, List.map_append, hinv.2]
          simp only [List.length_append, List.length_cons, List.length_nil]
          rw [hlen]
          rw [idRange_succ]
          simp
      · rw [hassoc, List.lookup_append, hfresh]
        simp only [Option.none_or]
        rw [hlen]
        simp [List.lookup_cons]
      · exact ⟨[(f, "g" ++ pyStr (defs.length + nd.length + 1))], hassoc⟩

theorem intern_bucket_props (defs : List (String × String)) (fs : List String)
    (nd : List (String × String)) (hinv : StoreInv (defs ++ nd)) :
    StoreInv (defs ++ (intern_bucket defs fs nd).2) ∧
    (∃ ext, defs ++ (intern_bucket defs fs nd).2 = (defs ++ nd) ++ ext) ∧
    (∀ p ∈ (intern_bucket defs fs nd).1,
      (defs ++ (intern_bucket defs fs nd).2).lookup p.1 = some p.2) ∧
    (intern_bucket defs fs nd).1.map Prod.fst = fs := by
  induction fs generalizing nd with
  | nil =>
    simp only [intern_bucket]
    exact ⟨hinv, ⟨[], by simp⟩, by simp, rfl⟩
  | cons f fs ih =>
    obtain ⟨hinv', hlook, ext₁, hext₁⟩ := find_or_create_step defs nd f hinv
    obtain ⟨hinvF, ⟨ext₂, hext₂⟩, hassign, htrace⟩ :=
      ih (find_or_create_definition defs nd f).2 hinv'
    simp only [intern_bucket]
    refine ⟨hinvF, ⟨ext₁ ++ ext₂, by rw [hext₂, hext₁, List.append_assoc]⟩, ?_, ?_⟩
    · intro p hp
      simp only [List.mem_cons] at hp
      rcases hp with hp | hp
      · subst hp
        rw [hext₂]
        exact lookup_preserved _ ext₂ f _ hlook
      · exact hassign p hp
    · simp [htrace]

theorem intern_stream_props (defs : List (String × String)) (bs : List (List String))
    (hinv : StoreInv defs) :
    StoreInv (intern_stream defs bs).2 ∧
    (∃ ext, (intern_stream defs bs).2 = defs ++ ext) ∧
    (∀ p ∈ (intern_stream defs bs).1, (intern_stream defs bs).2.lookup p.1 = some p.2) ∧
    (intern_stream defs bs).1.map Prod.fst = bs.flatten := by
  induction bs generalizing defs with
  | nil =>
    simp only [intern_stream]
    exact ⟨hinv, ⟨[], by simp⟩, by simp, rfl⟩
  | cons b rest ih =>
    have hinv0 : StoreInv (defs ++ []) := by simpa using hinv
    obtain ⟨hinvB, ⟨ext₁, hext₁⟩, hassignB, htraceB⟩ := intern_bucket_props defs b [] hinv0
    obtain ⟨hinvS, ⟨ext₂, hext₂⟩, hassignS, htraceS⟩ :=
      ih (defs ++ (intern_bucket defs b []).2) hinvB
    simp only [intern_stream]
    refine ⟨hinvS, ⟨(intern_bucket defs b []).2 ++ ext₂, by rw [hext₂, List.append_assoc]⟩,
      ?_, ?_⟩
    · intro p hp
      rcases List.mem_append.mp hp with hp | hp
      · rw [hext₂]
        exact lookup_preserved _ ext₂ p.1 p.2 (hassignB p hp)
      · exact hassignS p hp
    · simp [htraceB, htraceS]

/-- C2: across a whole stream of timing buckets, two interned text-run
fragments are assigned the same reference id exactly when their serialized
content is identical, and the definition store's ids are exactly
`g1, ..., gN` in creation order — the monotonic counter spanning persisted
and pending definitions, which therefore never collides with a previously
assigned id. -/
theorem intern_same_id_iff (buckets : List (List String)) :
    (∀ p ∈ (intern_stream [] buckets).1, ∀ q ∈ (intern_stream [] buckets).1,
      (p.2 = q.2 ↔ p.1 = q.1)) ∧
    (intern_stream [] buckets).2.map Prod.snd =
      idRange (intern_stream [] buckets).2.length := by
  have hinv0 : StoreInv ([] : List (String × String)) := ⟨List.nodup_nil, rfl⟩
  obtain ⟨hinv, _, hassign, _⟩ := intern_stream_props [] buckets hinv0
  refine ⟨?_, hinv.2⟩
  intro p hp q hq
  constructor
  · intro hid
    have h1 := hassign p hp
    have h2 := hassign q hq
    rw [hid] at h1
    exact lookup_inj _ hinv.1 hinv.snd_nodup p.1 q.1 q.2 h1 h2
  · intro hfrag
    have h1 := hassign p hp
    have h2 := hassign q hq
    rw [hfrag, h2] at h1
    exact (Option.some.inj h1).symm

/-- C2 witness: a two-bucket stream where the fragment `"A"` recurs in both
buckets and `"B"` differs: equal fragments share an id, different ones do
not, and the final store's ids are `g1, g2`. -/
theorem intern_same_id_iff_witness :
    ((∀ p ∈ (intern_stream [] [["A", "B"], ["A"]]).1,
        ∀ q ∈ (intern_stream [] [["A", "B"], ["A"]]).1,
        (p.2 = q.2 ↔ p.1 = q.1)) ∧
      (intern_stream [] [["A", "B"], ["A"]]).2.map Prod.snd =
        idRange (intern_stream [] [["A", "B"], ["A"]]).2.length) ∧
    (intern_stream [] [["A", "B"], ["A"]]).1 =
      [("A", "g1"), ("B", "g2"), ("A", "g1")] :=
  ⟨intern_same_id_iff [["A", "B"], ["A"]], rfl⟩

/-- Bridge: the definition store threaded through the whole render loop is
exactly the `intern_stream` of the buckets' serialized fragments. -/
theorem render_groups_loop_defs_bridge (cell_height cell_width : Nat)
    (default_bg_color : String) (defs : List (String × String))
    (buckets : List ((Nat × Nat) × List CharacterCellLineEvent)) :
    (render_groups_loop cell_height cell_width default_bg_color defs buckets).2.1 =
      (intern_stream defs (buckets.map (fun b => b.2.map
        (fun r => serializeTextGroup (render_characters r.line cell_width))))).2 := by
  induction buckets generalizing defs with
  | nil => rfl
  | cons b rest ih =>
    obtain ⟨⟨t, d⟩, recs⟩ := b
    simp only [render_groups_loop, List.map_cons, intern_stream, make_animated_group]
    rw [(make_animated_group_children_intern cell_height cell_width default_bg_color defs
      recs []).1]
    exact ih _
